import Mathlib

/-!
Verification of the RemindMe backend (`main.py`) against its specification.

The Python program is shallowly embedded:

* Supabase tables become Lean lists of record structures; a row update
  `table.update({...}).eq('id', i)` becomes a map over the list that rewrites
  every row whose key equals `i` (ids are unique in the database, which the
  theorems assume via `Nodup` hypotheses on the key columns).
* `datetime.date` values handled by the reminder scheduler are modelled as
  rata-die day numbers (`Int`); `event_date - timedelta(days=k)` becomes
  integer subtraction and date comparison becomes integer comparison.
  Calendar dates handled by the conversation engine are modelled as
  year/month/day triples compared lexicographically, which coincides with
  the ISO-string comparisons the code performs.
* Outbound Twilio calls are abstracted by a boolean oracle saying whether
  `twilio_client.messages.create` succeeds for given arguments; a raised
  exception corresponds to the oracle returning `false`.
* Python exceptions that the code catches are modelled by the corresponding
  `Option`/branching structure; functions the code wraps in a top-level
  `try/except` are total here because no modelled operation can fail outside
  the branches the code itself distinguishes.
-/

/-! ## Generic table helpers -/

section TableHelpers

variable {α : Type} {κ : Type} [DecidableEq κ]

/-- `table.update({...}).eq(key, i)`: rewrite every row whose key equals `i`. -/
def updateBy (key : α → κ) (upd : α → α) (i : κ) (l : List α) : List α :=
  l.map (fun x => if key x = i then upd x else x)

/-- `table.select(...).eq(key, i).single()`: the (first) row with key `i`. -/
def findBy (key : α → κ) (i : κ) (l : List α) : Option α :=
  l.find? (fun x => decide (key x = i))

theorem findBy_updateBy_ne (key : α → κ) (upd : α → α) (i j : κ)
    (hkey : ∀ x, key (upd x) = key x) (hne : j ≠ i) (l : List α) :
    findBy key j (updateBy key upd i l) = findBy key j l := by
  induction l with
  | nil => rfl
  | cons a l ih =>
      simp only [updateBy, List.map_cons, findBy] at *
      by_cases h : key a = i
      · have h1 : key (if key a = i then upd a else a) = key a := by
          simp [h, hkey]
        have h2 : ¬ key a = j := fun hc => hne ((h.symm.trans hc).symm)
        rw [List.find?_cons_of_neg _ (by simp [h1, h2]),
          List.find?_cons_of_neg _ (by simp [h2])]
        exact ih
      · by_cases h2 : key a = j
        · rw [if_neg h, List.find?_cons_of_pos _ (by simp [h2]),
            List.find?_cons_of_pos _ (by simp [h2])]
        · rw [if_neg h, List.find?_cons_of_neg _ (by simp [h2]),
            List.find?_cons_of_neg _ (by simp [h2])]
          exact ih

theorem findBy_updateBy_eq (key : α → κ) (upd : α → α) (i : κ)
    (hkey : ∀ x, key (upd x) = key x) (l : List α) :
    findBy key i (updateBy key upd i l) = (findBy key i l).map upd := by
  induction l with
  | nil => rfl
  | cons a l ih =>
      simp only [updateBy, List.map_cons, findBy] at *
      by_cases h : key a = i
      · rw [if_pos h, List.find?_cons_of_pos _ (by simp [hkey, h]),
          List.find?_cons_of_pos _ (by simp [h])]
        rfl
      · rw [if_neg h, List.find?_cons_of_neg _ (by simp [h]),
          List.find?_cons_of_neg _ (by simp [h])]
        exact ih

theorem map_key_updateBy (key : α → κ) (upd : α → α) (i : κ)
    (hkey : ∀ x, key (upd x) = key x) (l : List α) :
    (updateBy key upd i l).map key = l.map key := by
  induction l with
  | nil => rfl
  | cons a l ih =>
      simp only [updateBy, List.map_cons] at *
      by_cases h : key a = i
      · simp [h, hkey, ih]
      · simp [h, ih]

/-- With unique keys, the row found for the key of a member is that member. -/
theorem findBy_of_mem (key : α → κ) (l : List α)
    (hnd : (l.map key).Nodup) (x : α) (hx : x ∈ l) :
    findBy key (key x) l = some x := by
  induction l with
  | nil => cases hx
  | cons a l ih =>
      simp only [List.map_cons, List.nodup_cons] at hnd
      rcases List.mem_cons.mp hx with h | h
      · subst h
        simp [findBy, List.find?_cons]
      · have hne : key a ≠ key x := by
          intro hc
          exact hnd.1 (hc ▸ List.mem_map_of_mem key h)
        simp only [findBy, List.find?_cons, decide_eq_false (fun hc : key a = key x => hne hc)]
        exact ih hnd.2 h

theorem findBy_mem (key : α → κ) (i : κ) (l : List α) (x : α)
    (h : findBy key i l = some x) : x ∈ l ∧ key x = i := by
  have hm := List.mem_of_find?_eq_some h
  have hp := List.find?_some h
  exact ⟨hm, of_decide_eq_true hp⟩

omit [DecidableEq κ] in
/-- Two members sharing a key are equal when the key column is `Nodup`. -/
theorem key_inj_of_nodup (key : α → κ) (l : List α)
    (hnd : (l.map key).Nodup) (x y : α) (hx : x ∈ l) (hy : y ∈ l)
    (hk : key x = key y) : x = y := by
  induction l with
  | nil => cases hx
  | cons a l ih =>
      simp only [List.map_cons, List.nodup_cons] at hnd
      rcases List.mem_cons.mp hx with h | h <;> rcases List.mem_cons.mp hy with h2 | h2
      · exact h.trans h2.symm
      · subst h
        exact absurd (hk ▸ List.mem_map_of_mem key h2) hnd.1
      · subst h2
        exact absurd (hk ▸ List.mem_map_of_mem key h) hnd.1
      · exact ih hnd.2 h h2

/-- Fold invariant helper. -/
theorem foldl_invariant {σ : Type} {β : Type} (f : σ → β → σ) (P : σ → Prop)
    (l : List β) (st : σ) (h0 : P st)
    (hstep : ∀ st b, b ∈ l → P st → P (f st b)) : P (l.foldl f st) := by
  induction l generalizing st with
  | nil => exact h0
  | cons a l ih =>
      exact ih (f st a) (hstep st a (List.mem_cons_self a l)
        h0) (fun st' b hb => hstep st' b (List.mem_cons_of_mem a hb))

end TableHelpers

/-! ## Data model of the reminder scheduler (`events`, `profiles`, `notifications_sent`) -/

/-- A row of the `events` table.  `event_date` is the rata-die day number of
the parsed `'%Y-%m-%d'` date. -/
structure EventRow where
  id : Nat
  title : String
  event_date : Int
  days_to_notify : Int
  event_type : String
  user_id : String
  notified : Option String
deriving DecidableEq, Repr

/-- A row of the `profiles` table. -/
structure Profile where
  id : String
  full_name : Option String
  phone_number : Option String
deriving DecidableEq, Repr

/-- A row of the `notifications_sent` table (the append-only notification log). -/
structure NotifRecord where
  user_id : String
  event_id : Option Nat
  notification_type : String
  notification_content : String
  phone_number : String
  twilio_message_sid : Option String
  delivery_status : String
deriving DecidableEq, Repr

/-- The durable state the reminder scheduler touches. -/
structure Store where
  events : List EventRow
  profiles : List Profile
  notifications : List NotifRecord
deriving DecidableEq, Repr

/-- The `or_('notified.is.null,notified.eq.')` filter: NULL or empty string. -/
def pendingN (v : Option String) : Bool :=
  v = none ∨ v = some ""

/-- `notification_date = event_date - timedelta(days=days_to_notify)`. -/
def notification_date (e : EventRow) : Int :=
  e.event_date - e.days_to_notify

/-- Observable effects of one reminder tick, used to state ordering claims. -/
inductive Eff where
  | markNo (eventId : Nat)
  | skipHeld (eventId : Nat)
  | acquire (eventId : Nat)
  | reread (eventId : Nat)
  | markYes (eventId : Nat) (confirmed : Bool)
  | send (eventId : Nat) (ok : Bool)
  | release (eventId : Nat)
deriving DecidableEq, Repr

/-- The logical item id an effect concerns. -/
def Eff.eventId : Eff → Nat
  | .markNo i => i
  | .skipHeld i => i
  | .acquire i => i
  | .reread i => i
  | .markYes i _ => i
  | .send i _ => i
  | .release i => i

/-- In-process state threaded through one `check_and_send_notifications` call:
the store, the `processing_events` guard set, the two counters and the
effect trace. -/
structure PState where
  store : Store
  guard : List Nat
  sent : Nat
  failed : Nat
  trace : List Eff
deriving DecidableEq, Repr

/-- The double-check guard of line 159:
`current_event_response.data and current_event_response.data.get('notified')
not in [None, '', 'No']`.  Note `'No'` is in the allow list, so a re-read
value of `'No'` does NOT make the runner skip. -/
def doubleCheckSkips (cur : Option EventRow) : Bool :=
  match cur with
  | some r => decide (¬(r.notified = none ∨ r.notified = some "" ∨ r.notified = some "No"))
  | none => false

/-- `{'notified': v}`, the row rewrite an `events` update applies. -/
def setNotified (v : Option String) (x : EventRow) : EventRow :=
  { x with notified := v }

/-- Abstraction of `strftime('%B %d, %Y')` applied to a rata-die day number.
No claim inspects the formatted text. -/
def formatDateOrd (d : Int) : String :=
  "day " ++ toString d

/-- The reminder message f-string (after `.strip()`). -/
def reminderMessage (userName eventTypeText title dateText : String) : String :=
  s!"Event Reminder\n\nHi {userName}!\n\nYou have an upcoming {eventTypeText}:\n{title}\nDate: {dateText}\n\nDon't forget to prepare for this important event!\n\nBest regards,\nRemindMe"

/-- `send_whatsapp_notification`: prefix `+` if missing, attempt the Twilio
send (`sendOk` decides whether `messages.create` succeeds), and log one
`notifications_sent` row when `user_id` is truthy — with status `'sent'` on
success and `'failed'` on failure.  Returns the function's boolean result and
the updated store. -/
def send_whatsapp_notification (sendOk : String → String → Bool)
    (phone_number message user_id : String) (event_id : Option Nat)
    (notification_type : String) (s : Store) : Bool × Store :=
  let phone := if phone_number.startsWith "+" then phone_number else "+" ++ phone_number
  if sendOk phone message then
    (true,
      if user_id ≠ "" then
        { s with notifications := s.notifications ++
            [⟨user_id, event_id, notification_type, message, phone, some "sid", "sent"⟩] }
      else s)
  else
    (false,
      if user_id ≠ "" then
        { s with notifications := s.notifications ++
            [⟨user_id, event_id, notification_type, message, phone, none, "failed"⟩] }
      else s)

/-- Lines 162–208: the optimistic `'Yes'` write, profile resolution, message
formatting and the send for candidate `e`, entered once the double-check did
not skip. -/
def candidateDispatch (sendOk : String → String → Bool) (e : EventRow)
    (ps2 : PState) : PState :=
  -- `update({'notified': 'Yes'}).eq('id', e.id)`; `data` is the list of
  -- rewritten rows, so the write confirms iff the row exists.
  let confirmed : Bool := ps2.store.events.any (fun x => x.id = e.id)
  let st2 : Store :=
    { ps2.store with
        events := updateBy EventRow.id (setNotified (some "Yes")) e.id
          ps2.store.events }
  let ps3 : PState :=
    { ps2 with store := st2, trace := ps2.trace ++ [.markYes e.id confirmed] }
  if confirmed then
    match findBy Profile.id e.user_id ps3.store.profiles with
    | none => { ps3 with failed := ps3.failed + 1 }
    | some p =>
      if p.phone_number = none ∨ p.phone_number = some "" then
        { ps3 with failed := ps3.failed + 1 }
      else
        let event_type_text :=
          if e.event_type = "recurrence" then "recurring event" else "deadline"
        -- `dict.get('full_name', 'User')` with the column present: a NULL
        -- value renders as Python's `None`.
        let user_name := match p.full_name with | some n => n | none => "None"
        let msg := reminderMessage user_name event_type_text e.title
          (formatDateOrd e.event_date)
        let res := send_whatsapp_notification sendOk (p.phone_number.getD "")
          msg e.user_id (some e.id) "event_reminder" ps3.store
        let ps4 : PState :=
          { ps3 with store := res.2, trace := ps3.trace ++ [.send e.id res.1] }
        if res.1 then { ps4 with sent := ps4.sent + 1 }
        else { ps4 with failed := ps4.failed + 1 }
  else { ps3 with failed := ps3.failed + 1 }

/-- The body of the `for event in events_to_process` loop of
`check_and_send_notifications` for one candidate `e` (lines 148–212):
guard acquisition, the double-check re-read, the dispatch, and the
unconditional (`finally`) guard release. -/
def processCandidate (sendOk : String → String → Bool) (ps : PState)
    (e : EventRow) : PState :=
  if e.id ∈ ps.guard then
    { ps with trace := ps.trace ++ [.skipHeld e.id] }
  else
    let ps1 : PState :=
      { ps with guard := e.id :: ps.guard, trace := ps.trace ++ [.acquire e.id] }
    let cur := findBy EventRow.id e.id ps1.store.events
    let ps2 : PState := { ps1 with trace := ps1.trace ++ [.reread e.id] }
    let body : PState :=
      if doubleCheckSkips cur then ps2 else candidateDispatch sendOk e ps2
    { body with guard := body.guard.erase e.id, trace := body.trace ++ [.release e.id] }

/-- The first loop of `check_and_send_notifications` restricted to its store
effect: `today > notification_date` marks the event `'No'` unconditionally
and without the guard; the other branches write nothing. -/
def expiryStep (today : Int) (ps : PState) (e : EventRow) : PState :=
  if today = notification_date e then ps
  else if today > notification_date e then
    { ps with
        store := { ps.store with
          events := updateBy EventRow.id (setNotified (some "No")) e.id
            ps.store.events },
        trace := ps.trace ++ [.markNo e.id] }
  else ps

/-- The events fetched by the tick's initial query:
`notified` NULL or empty. -/
def tickSnapshot (s : Store) : List EventRow :=
  s.events.filter (fun e => pendingN e.notified)

/-- One tick of `check_and_send_notifications` (the single pass over
`response.data` is split into its two independent parts: the unconditional
expiry writes for `today > notification_date`, and the pure collection of
the `today == notification_date` candidates into `events_to_process`).
The guard set starts empty: this models one sequential run. -/
def check_and_send_notifications (sendOk : String → String → Bool)
    (today : Int) (s : Store) : PState :=
  ((tickSnapshot s).filter (fun e => today = notification_date e)).foldl
    (processCandidate sendOk)
    ((tickSnapshot s).foldl (expiryStep today) ⟨s, [], 0, 0, []⟩)

/-- The `events` row with id `i`. -/
def eventRow (s : Store) (i : Nat) : Option EventRow :=
  findBy EventRow.id i s.events

/-- The `notified` column of the `events` row with id `i`. -/
def eventNotified (s : Store) (i : Nat) : Option (Option String) :=
  (eventRow s i).map EventRow.notified

/-- Number of `notifications_sent` rows whose `event_id` is `i`. -/
def recFor (s : Store) (i : Nat) : Nat :=
  (s.notifications.filter (fun r => r.event_id = some i)).length

/-! ## Invariant lemmas about one reminder tick -/

theorem setNotified_id (v : Option String) (x : EventRow) :
    (setNotified v x).id = x.id := rfl

theorem recFor_append_one (s : Store) (r : NotifRecord) (t : Nat) :
    recFor { s with notifications := s.notifications ++ [r] } t =
      recFor s t + (if r.event_id = some t then 1 else 0) := by
  by_cases h : r.event_id = some t <;>
    simp [recFor, List.filter_append, h]

theorem send_whatsapp_notification_effect (sendOk : String → String → Bool)
    (phone message user_id : String) (event_id : Option Nat)
    (notification_type : String) (s : Store) :
    (send_whatsapp_notification sendOk phone message user_id event_id
        notification_type s).2.events = s.events ∧
    (send_whatsapp_notification sendOk phone message user_id event_id
        notification_type s).2.profiles = s.profiles ∧
    ∀ t, recFor (send_whatsapp_notification sendOk phone message user_id event_id
        notification_type s).2 t =
      recFor s t + (if user_id ≠ "" ∧ event_id = some t then 1 else 0) := by
  unfold send_whatsapp_notification
  by_cases hs : sendOk (if phone.startsWith "+" then phone else "+" ++ phone) message <;>
    by_cases hu : user_id = ""
  · rw [if_pos hs, if_neg (show ¬ user_id ≠ "" by simp [hu])]
    exact ⟨rfl, rfl, fun t => by simp [hu]⟩
  · rw [if_pos hs, if_pos hu]
    refine ⟨rfl, rfl, fun t => ?_⟩
    rw [recFor_append_one]
    by_cases he : event_id = some t <;> simp [he, hu]
  · rw [if_neg hs, if_neg (show ¬ user_id ≠ "" by simp [hu])]
    exact ⟨rfl, rfl, fun t => by simp [hu]⟩
  · rw [if_neg hs, if_pos hu]
    refine ⟨rfl, rfl, fun t => ?_⟩
    rw [recFor_append_one]
    by_cases he : event_id = some t <;> simp [he, hu]

theorem updateBy_of_no_key {α κ : Type} [DecidableEq κ] (key : α → κ) (upd : α → α)
    (i : κ) (l : List α) (h : ∀ x ∈ l, key x ≠ i) : updateBy key upd i l = l := by
  induction l with
  | nil => rfl
  | cons a l ih =>
      simp only [updateBy, List.map_cons] at *
      rw [if_neg (h a (List.mem_cons_self a l))]
      rw [ih (fun x hx => h x (List.mem_cons_of_mem a hx))]


/-- Shorthand for the `events` table after the optimistic `'Yes'` write. -/
def yesWrite (e : EventRow) (s : Store) : Store :=
  { s with events := updateBy EventRow.id (setNotified (some "Yes")) e.id s.events }

/-- Shorthand for the message `candidateDispatch` formats for `e` and `p`. -/
def candidateMsg (e : EventRow) (p : Profile) : String :=
  reminderMessage (match p.full_name with | some n => n | none => "None")
    (if e.event_type = "recurrence" then "recurring event" else "deadline")
    e.title (formatDateOrd e.event_date)

theorem candidateDispatch_eq_noProfile (sendOk : String → String → Bool)
    (e : EventRow) (ps2 : PState)
    (hcf : (ps2.store.events.any fun x => decide (x.id = e.id)) = true)
    (hfp : findBy Profile.id e.user_id ps2.store.profiles = none) :
    candidateDispatch sendOk e ps2 =
      { ps2 with
          store := yesWrite e ps2.store, failed := ps2.failed + 1,
          trace := ps2.trace ++ [Eff.markYes e.id true] } := by
  simp only [candidateDispatch, hcf, if_true, ite_true, hfp, yesWrite]

theorem candidateDispatch_eq_noPhone (sendOk : String → String → Bool)
    (e : EventRow) (ps2 : PState) (p : Profile)
    (hcf : (ps2.store.events.any fun x => decide (x.id = e.id)) = true)
    (hfp : findBy Profile.id e.user_id ps2.store.profiles = some p)
    (hph : p.phone_number = none ∨ p.phone_number = some "") :
    candidateDispatch sendOk e ps2 =
      { ps2 with
          store := yesWrite e ps2.store, failed := ps2.failed + 1,
          trace := ps2.trace ++ [Eff.markYes e.id true] } := by
  simp only [candidateDispatch, hcf, if_true, ite_true, hfp, if_pos hph, yesWrite]

theorem candidateDispatch_eq_send_ok (sendOk : String → String → Bool)
    (e : EventRow) (ps2 : PState) (p : Profile)
    (hcf : (ps2.store.events.any fun x => decide (x.id = e.id)) = true)
    (hfp : findBy Profile.id e.user_id ps2.store.profiles = some p)
    (hph : ¬(p.phone_number = none ∨ p.phone_number = some ""))
    (hr : (send_whatsapp_notification sendOk (p.phone_number.getD "")
      (candidateMsg e p) e.user_id (some e.id) "event_reminder"
      (yesWrite e ps2.store)).1 = true) :
    candidateDispatch sendOk e ps2 =
      { ps2 with
          store := (send_whatsapp_notification sendOk (p.phone_number.getD "")
            (candidateMsg e p) e.user_id (some e.id) "event_reminder"
            (yesWrite e ps2.store)).2,
          sent := ps2.sent + 1,
          trace := (ps2.trace ++ [Eff.markYes e.id true]) ++ [Eff.send e.id true] } := by
  simp only [candidateMsg, yesWrite] at hr
  simp only [candidateDispatch, hcf, if_true, ite_true, hfp, if_neg hph, yesWrite,
    candidateMsg, hr]

theorem candidateDispatch_eq_send_fail (sendOk : String → String → Bool)
    (e : EventRow) (ps2 : PState) (p : Profile)
    (hcf : (ps2.store.events.any fun x => decide (x.id = e.id)) = true)
    (hfp : findBy Profile.id e.user_id ps2.store.profiles = some p)
    (hph : ¬(p.phone_number = none ∨ p.phone_number = some ""))
    (hr : (send_whatsapp_notification sendOk (p.phone_number.getD "")
      (candidateMsg e p) e.user_id (some e.id) "event_reminder"
      (yesWrite e ps2.store)).1 = false) :
    candidateDispatch sendOk e ps2 =
      { ps2 with
          store := (send_whatsapp_notification sendOk (p.phone_number.getD "")
            (candidateMsg e p) e.user_id (some e.id) "event_reminder"
            (yesWrite e ps2.store)).2,
          failed := ps2.failed + 1,
          trace := (ps2.trace ++ [Eff.markYes e.id true]) ++ [Eff.send e.id false] } := by
  simp only [candidateMsg, yesWrite] at hr
  simp only [candidateDispatch, hcf, if_true, ite_true, hfp, if_neg hph, yesWrite,
    candidateMsg, hr, Bool.false_eq_true, if_false, ite_false]

theorem candidateDispatch_eq_unconfirmed (sendOk : String → String → Bool)
    (e : EventRow) (ps2 : PState)
    (hcf : (ps2.store.events.any fun x => decide (x.id = e.id)) = false) :
    candidateDispatch sendOk e ps2 =
      { ps2 with
          store := yesWrite e ps2.store, failed := ps2.failed + 1,
          trace := ps2.trace ++ [Eff.markYes e.id false] } := by
  simp only [candidateDispatch, hcf, Bool.false_eq_true, if_false, ite_false, yesWrite]

theorem send_whatsapp_notification_notifs (sendOk : String → String → Bool)
    (phone message user_id : String) (event_id : Option Nat)
    (notification_type : String) (s : Store) :
    ∃ extra, (send_whatsapp_notification sendOk phone message user_id event_id
        notification_type s).2.notifications = s.notifications ++ extra ∧
      ∀ r ∈ extra, r.event_id = event_id := by
  unfold send_whatsapp_notification
  by_cases hs : sendOk (if phone.startsWith "+" then phone else "+" ++ phone) message <;>
    by_cases hu : user_id = ""
  · rw [if_pos hs, if_neg (show ¬ user_id ≠ "" by simp [hu])]
    exact ⟨[], by simp, by simp⟩
  · rw [if_pos hs, if_pos hu]
    refine ⟨_, rfl, ?_⟩
    intro r hr
    rcases List.mem_singleton.mp hr with h
    subst h
    rfl
  · rw [if_neg hs, if_neg (show ¬ user_id ≠ "" by simp [hu])]
    exact ⟨[], by simp, by simp⟩
  · rw [if_neg hs, if_pos hu]
    refine ⟨_, rfl, ?_⟩
    intro r hr
    rcases List.mem_singleton.mp hr with h
    subst h
    rfl

theorem recFor_append_list (s s' : Store) (extra : List NotifRecord) (t : Nat)
    (h : s'.notifications = s.notifications ++ extra) :
    recFor s' t = recFor s t + (extra.filter (fun r => r.event_id = some t)).length := by
  simp [recFor, h, List.filter_append]

/-- Every exit of `candidateDispatch`: the guard is untouched, profiles are
untouched, the events table has been rewritten by the `'Yes'` update, the
notification log grows only by records for `e`, and the trace grows by the
`markYes` effect (carrying the write's confirmation) optionally followed by
one `send` effect, the latter only when the write confirmed. -/
theorem candidateDispatch_shape (sendOk : String → String → Bool) (e : EventRow)
    (ps2 : PState) :
    ∃ extra rest,
      (candidateDispatch sendOk e ps2).store.events =
          updateBy EventRow.id (setNotified (some "Yes")) e.id ps2.store.events ∧
      (candidateDispatch sendOk e ps2).store.profiles = ps2.store.profiles ∧
      (candidateDispatch sendOk e ps2).store.notifications =
          ps2.store.notifications ++ extra ∧
      (∀ r ∈ extra, r.event_id = some e.id) ∧
      (candidateDispatch sendOk e ps2).guard = ps2.guard ∧
      (candidateDispatch sendOk e ps2).trace =
          ps2.trace ++ Eff.markYes e.id
            (ps2.store.events.any fun x => decide (x.id = e.id)) :: rest ∧
      (rest = [] ∨ ((ps2.store.events.any fun x => decide (x.id = e.id)) = true ∧
        ∃ b, rest = [Eff.send e.id b])) := by
  by_cases hcf : (ps2.store.events.any fun x => decide (x.id = e.id)) = true
  · rcases hfp : findBy Profile.id e.user_id ps2.store.profiles with _ | p
    · rw [candidateDispatch_eq_noProfile sendOk e ps2 hcf hfp]
      exact ⟨[], [], rfl, rfl, by simp [yesWrite], by simp, rfl, by rw [hcf], Or.inl rfl⟩
    · by_cases hph : p.phone_number = none ∨ p.phone_number = some ""
      · rw [candidateDispatch_eq_noPhone sendOk e ps2 p hcf hfp hph]
        exact ⟨[], [], rfl, rfl, by simp [yesWrite], by simp, rfl, by rw [hcf], Or.inl rfl⟩
      · have hnot := send_whatsapp_notification_notifs sendOk (p.phone_number.getD "")
          (candidateMsg e p) e.user_id (some e.id) "event_reminder" (yesWrite e ps2.store)
        rcases hnot with ⟨extra, hext, hall⟩
        have heff := send_whatsapp_notification_effect sendOk (p.phone_number.getD "")
          (candidateMsg e p) e.user_id (some e.id) "event_reminder" (yesWrite e ps2.store)
        by_cases hr : (send_whatsapp_notification sendOk (p.phone_number.getD "")
            (candidateMsg e p) e.user_id (some e.id) "event_reminder"
            (yesWrite e ps2.store)).1 = true
        · rw [candidateDispatch_eq_send_ok sendOk e ps2 p hcf hfp hph hr]
          refine ⟨extra, [Eff.send e.id true], ?_, ?_, ?_, hall, rfl, ?_, ?_⟩
          · rw [heff.1]
            rfl
          · rw [heff.2.1]
            rfl
          · rw [hext]
            rfl
          · rw [hcf]
            simp
          · exact Or.inr ⟨hcf, true, rfl⟩
        · rw [candidateDispatch_eq_send_fail sendOk e ps2 p hcf hfp hph
            (Bool.eq_false_iff.mpr hr)]
          refine ⟨extra, [Eff.send e.id false], ?_, ?_, ?_, hall, rfl, ?_, ?_⟩
          · rw [heff.1]
            rfl
          · rw [heff.2.1]
            rfl
          · rw [hext]
            rfl
          · rw [hcf]
            simp
          · exact Or.inr ⟨hcf, false, rfl⟩
  · rw [candidateDispatch_eq_unconfirmed sendOk e ps2 (Bool.eq_false_iff.mpr hcf)]
    refine ⟨[], [], rfl, rfl, by simp [yesWrite], by simp, rfl, ?_, Or.inl rfl⟩
    rw [Bool.eq_false_iff.mpr hcf]

theorem processCandidate_eq_held (sendOk : String → String → Bool) (ps : PState)
    (c : EventRow) (hg : c.id ∈ ps.guard) :
    processCandidate sendOk ps c = { ps with trace := ps.trace ++ [Eff.skipHeld c.id] } := by
  simp only [processCandidate, if_pos hg]

theorem processCandidate_eq_skip (sendOk : String → String → Bool) (ps : PState)
    (c : EventRow) (hg : c.id ∉ ps.guard)
    (hskip : doubleCheckSkips (findBy EventRow.id c.id ps.store.events) = true) :
    processCandidate sendOk ps c =
      { ps with
          trace := ((ps.trace ++ [Eff.acquire c.id]) ++ [Eff.reread c.id]) ++
            [Eff.release c.id] } := by
  simp only [processCandidate, if_neg hg, hskip, if_true, ite_true]
  simp [List.erase_cons_head]

theorem processCandidate_eq_dispatch (sendOk : String → String → Bool) (ps : PState)
    (c : EventRow) (hg : c.id ∉ ps.guard)
    (hskip : doubleCheckSkips (findBy EventRow.id c.id ps.store.events) = false) :
    processCandidate sendOk ps c =
      (let body := candidateDispatch sendOk c
        { ps with
            guard := c.id :: ps.guard,
            trace := (ps.trace ++ [Eff.acquire c.id]) ++ [Eff.reread c.id] }
       { body with
          guard := body.guard.erase c.id,
          trace := body.trace ++ [Eff.release c.id] }) := by
  simp only [processCandidate, if_neg hg, hskip, Bool.false_eq_true, if_false, ite_false]

theorem filter_length_zero {β : Type} (p : β → Bool) (l : List β)
    (h : ∀ x ∈ l, p x = false) : (l.filter p).length = 0 := by
  induction l with
  | nil => rfl
  | cons a l ih =>
      rw [List.filter_cons, h a (List.mem_cons_self a l)]
      exact ih (fun x hx => h x (List.mem_cons_of_mem a hx))

/-- What one `processCandidate` call can do to the state, independent of the
branch taken: profiles, guard and the rows/records of every *other* event are
untouched, event ids are preserved, and the trace grows only by effects
concerning `c`. -/
theorem processCandidate_shape (sendOk : String → String → Bool) (ps : PState)
    (c : EventRow) :
    ∃ suffix,
      (processCandidate sendOk ps c).store.profiles = ps.store.profiles ∧
      (processCandidate sendOk ps c).guard = ps.guard ∧
      (processCandidate sendOk ps c).trace = ps.trace ++ suffix ∧
      (∀ f ∈ suffix, f.eventId = c.id) ∧
      (∀ t, ¬ t = c.id →
        findBy EventRow.id t (processCandidate sendOk ps c).store.events =
          findBy EventRow.id t ps.store.events ∧
        recFor (processCandidate sendOk ps c).store t = recFor ps.store t) ∧
      (processCandidate sendOk ps c).store.events.map EventRow.id =
        ps.store.events.map EventRow.id := by
  by_cases hg : c.id ∈ ps.guard
  · rw [processCandidate_eq_held sendOk ps c hg]
    refine ⟨[Eff.skipHeld c.id], rfl, rfl, rfl, ?_, fun t _ => ⟨rfl, rfl⟩, rfl⟩
    intro f hf
    rcases List.mem_singleton.mp hf with h
    subst h
    rfl
  · by_cases hskip : doubleCheckSkips (findBy EventRow.id c.id ps.store.events) = true
    · rw [processCandidate_eq_skip sendOk ps c hg hskip]
      refine ⟨[Eff.acquire c.id, Eff.reread c.id, Eff.release c.id], rfl, rfl, by simp, ?_,
        fun t _ => ⟨rfl, rfl⟩, rfl⟩
      intro f hf
      simp only [List.mem_cons, List.mem_singleton, List.not_mem_nil, or_false] at hf
      rcases hf with h | h | h <;> (subst h; rfl)
    · rw [processCandidate_eq_dispatch sendOk ps c hg (Bool.eq_false_iff.mpr hskip)]
      rcases candidateDispatch_shape sendOk c
        { ps with
            guard := c.id :: ps.guard,
            trace := (ps.trace ++ [Eff.acquire c.id]) ++ [Eff.reread c.id] } with
        ⟨extra, rest, hev, hpr, hnot, hall, hgd, htr, hrest⟩
      refine ⟨[Eff.acquire c.id, Eff.reread c.id] ++
        (Eff.markYes c.id (ps.store.events.any fun x => decide (x.id = c.id)) :: rest) ++
        [Eff.release c.id], hpr, ?_, ?_, ?_, ?_, ?_⟩
      · show ((candidateDispatch sendOk c _).guard).erase c.id = ps.guard
        rw [hgd]
        exact List.erase_cons_head c.id ps.guard
      · show (candidateDispatch sendOk c _).trace ++ [Eff.release c.id] = _
        rw [htr]
        simp
      · intro f hf
        rcases hrest with hnil | ⟨_, b, hb⟩
        · subst hnil
          fin_cases hf <;> rfl
        · subst hb
          fin_cases hf <;> rfl
      · intro t ht
        constructor
        · show findBy EventRow.id t (candidateDispatch sendOk c _).store.events = _
          rw [hev]
          exact findBy_updateBy_ne EventRow.id (setNotified (some "Yes")) c.id t
            (setNotified_id (some "Yes")) ht ps.store.events
        · show recFor (candidateDispatch sendOk c _).store t = _
          have := recFor_append_list
            { ps.store with notifications := ps.store.notifications }
            (candidateDispatch sendOk c
              { ps with
                  guard := c.id :: ps.guard,
                  trace := (ps.trace ++ [Eff.acquire c.id]) ++ [Eff.reread c.id] }).store
            extra t (by simpa using hnot)
          rw [this, filter_length_zero]
          · simp [recFor]
          · intro r hr
            rw [decide_eq_false]
            intro hc
            exact ht (by injection (hall r hr ▸ hc : some c.id = some t) with h; exact h.symm)
      · show (candidateDispatch sendOk c _).store.events.map EventRow.id = _
        rw [hev]
        exact map_key_updateBy EventRow.id (setNotified (some "Yes")) c.id
          (setNotified_id (some "Yes")) ps.store.events

theorem recFor_congr (s s' : Store) (t : Nat)
    (h : s'.notifications = s.notifications) : recFor s' t = recFor s t := by
  simp [recFor, h]

theorem expiryStep_shape (today : Int) (ps : PState) (e : EventRow) :
    ∃ suffix,
      (expiryStep today ps e).store.profiles = ps.store.profiles ∧
      (expiryStep today ps e).store.notifications = ps.store.notifications ∧
      (expiryStep today ps e).guard = ps.guard ∧
      (expiryStep today ps e).trace = ps.trace ++ suffix ∧
      (suffix = [] ∨ suffix = [Eff.markNo e.id]) ∧
      (∀ t, ¬ t = e.id → findBy EventRow.id t (expiryStep today ps e).store.events =
        findBy EventRow.id t ps.store.events) ∧
      (expiryStep today ps e).store.events.map EventRow.id =
        ps.store.events.map EventRow.id := by
  unfold expiryStep
  split
  · exact ⟨[], rfl, rfl, rfl, by simp, Or.inl rfl, fun t _ => rfl, rfl⟩
  · split
    · refine ⟨[Eff.markNo e.id], rfl, rfl, rfl, rfl, Or.inr rfl, ?_, ?_⟩
      · intro t ht
        exact findBy_updateBy_ne EventRow.id (setNotified (some "No")) e.id t
          (setNotified_id (some "No")) ht ps.store.events
      · exact map_key_updateBy EventRow.id (setNotified (some "No")) e.id
          (setNotified_id (some "No")) ps.store.events
    · exact ⟨[], rfl, rfl, rfl, by simp, Or.inl rfl, fun t _ => rfl, rfl⟩

theorem expiryStep_eq_candidate (today : Int) (ps : PState) (e : EventRow)
    (h : today = notification_date e) : expiryStep today ps e = ps := by
  unfold expiryStep
  rw [if_pos h]

theorem expiryStep_eq_expired (today : Int) (ps : PState) (e : EventRow)
    (h1 : ¬ today = notification_date e) (h2 : today > notification_date e) :
    expiryStep today ps e =
      { ps with
          store := { ps.store with
            events := updateBy EventRow.id (setNotified (some "No")) e.id
              ps.store.events },
          trace := ps.trace ++ [Eff.markNo e.id] } := by
  unfold expiryStep
  rw [if_neg h1, if_pos h2]

/-- Rows whose `notified` is not pending, and their notification records, are
untouched by a whole tick; so are profiles and the event-id column. -/
theorem tick_preserves_row (sendOk : String → String → Bool) (today : Int)
    (s : Store) (t : Nat) (r : EventRow)
    (hnd : (s.events.map EventRow.id).Nodup)
    (hrow : findBy EventRow.id t s.events = some r)
    (hnp : pendingN r.notified = false) :
    findBy EventRow.id t
        (check_and_send_notifications sendOk today s).store.events = some r ∧
    recFor (check_and_send_notifications sendOk today s).store t = recFor s t ∧
    (check_and_send_notifications sendOk today s).store.profiles = s.profiles ∧
    (check_and_send_notifications sendOk today s).store.events.map EventRow.id =
      s.events.map EventRow.id := by
  have hrm := findBy_mem EventRow.id t s.events r hrow
  have hne : ∀ x ∈ tickSnapshot s, ¬ x.id = t := by
    intro x hx hxt
    have hx2 := List.mem_filter.mp hx
    have : x = r := key_inj_of_nodup EventRow.id s.events hnd x r hx2.1 hrm.1
      (hxt.trans hrm.2.symm)
    subst this
    rw [hx2.2] at hnp
    cases hnp
  set P : PState → Prop := fun ps =>
    findBy EventRow.id t ps.store.events = some r ∧
    recFor ps.store t = recFor s t ∧
    ps.store.profiles = s.profiles ∧
    ps.store.events.map EventRow.id = s.events.map EventRow.id with hP
  have h1 : P ((tickSnapshot s).foldl (expiryStep today) ⟨s, [], 0, 0, []⟩) := by
    refine foldl_invariant (expiryStep today) P (tickSnapshot s) ⟨s, [], 0, 0, []⟩
      ⟨hrow, rfl, rfl, rfl⟩ ?_
    intro ps e he hps
    rcases expiryStep_shape today ps e with ⟨suffix, hpr, hnot, _, _, _, hfind, hmap⟩
    exact ⟨(hfind t (fun hc => hne e he hc.symm)).trans hps.1,
      (recFor_congr ps.store (expiryStep today ps e).store t hnot).trans hps.2.1,
      hpr.trans hps.2.2.1, hmap.trans hps.2.2.2⟩
  refine foldl_invariant (processCandidate sendOk) P _ _ h1 ?_
  intro ps c hc hps
  have hcs : c ∈ tickSnapshot s := (List.mem_filter.mp hc).1
  rcases processCandidate_shape sendOk ps c with ⟨suffix, hpr, _, _, _, hother, hmap⟩
  rcases hother t (fun hc2 => hne c hcs (hc2.symm ▸ rfl)) with ⟨hfind, hrec⟩
  exact ⟨hfind.trans hps.1, hrec.trans hps.2.1, hpr.trans hps.2.2.1, hmap.trans hps.2.2.2⟩

theorem candidateDispatch_run (sendOk : String → String → Bool) (e : EventRow)
    (ps2 : PState) (p : Profile)
    (hcf : (ps2.store.events.any fun x => decide (x.id = e.id)) = true)
    (hfp : findBy Profile.id e.user_id ps2.store.profiles = some p)
    (hph : ¬(p.phone_number = none ∨ p.phone_number = some ""))
    (huid : e.user_id ≠ "") :
    recFor (candidateDispatch sendOk e ps2).store e.id = recFor ps2.store e.id + 1 := by
  have heff := send_whatsapp_notification_effect sendOk (p.phone_number.getD "")
    (candidateMsg e p) e.user_id (some e.id) "event_reminder" (yesWrite e ps2.store)
  have hbase : recFor (yesWrite e ps2.store) e.id = recFor ps2.store e.id :=
    recFor_congr ps2.store (yesWrite e ps2.store) e.id rfl
  by_cases hr : (send_whatsapp_notification sendOk (p.phone_number.getD "")
      (candidateMsg e p) e.user_id (some e.id) "event_reminder"
      (yesWrite e ps2.store)).1 = true
  · rw [candidateDispatch_eq_send_ok sendOk e ps2 p hcf hfp hph hr]
    show recFor (send_whatsapp_notification sendOk (p.phone_number.getD "")
      (candidateMsg e p) e.user_id (some e.id) "event_reminder"
      (yesWrite e ps2.store)).2 e.id = _
    rw [heff.2.2 e.id, hbase]
    simp [huid]
  · rw [candidateDispatch_eq_send_fail sendOk e ps2 p hcf hfp hph
      (Bool.eq_false_iff.mpr hr)]
    show recFor (send_whatsapp_notification sendOk (p.phone_number.getD "")
      (candidateMsg e p) e.user_id (some e.id) "event_reminder"
      (yesWrite e ps2.store)).2 e.id = _
    rw [heff.2.2 e.id, hbase]
    simp [huid]

/-- The happy path of one candidate: guard free, row still pending at the
re-read (or marked `'No'`), profile resolvable with a phone number, truthy
`user_id`: the row is rewritten to `'Yes'` and exactly one notification
record for the event is logged. -/
theorem processCandidate_run (sendOk : String → String → Bool) (ps : PState)
    (e : EventRow) (r : EventRow) (p : Profile)
    (hg : e.id ∉ ps.guard)
    (hrow : findBy EventRow.id e.id ps.store.events = some r)
    (hnp : r.notified = none ∨ r.notified = some "" ∨ r.notified = some "No")
    (hprof : findBy Profile.id e.user_id ps.store.profiles = some p)
    (hph : ¬(p.phone_number = none ∨ p.phone_number = some ""))
    (huid : e.user_id ≠ "") :
    findBy EventRow.id e.id (processCandidate sendOk ps e).store.events =
      some (setNotified (some "Yes") r) ∧
    recFor (processCandidate sendOk ps e).store e.id = recFor ps.store e.id + 1 ∧
    (processCandidate sendOk ps e).store.profiles = ps.store.profiles ∧
    (processCandidate sendOk ps e).store.events.map EventRow.id =
      ps.store.events.map EventRow.id ∧
    (processCandidate sendOk ps e).guard = ps.guard := by
  have hskip : doubleCheckSkips (findBy EventRow.id e.id ps.store.events) = false := by
    rw [hrow]
    unfold doubleCheckSkips
    rcases hnp with h | h | h <;> simp [h]
  have hrm := findBy_mem EventRow.id e.id ps.store.events r hrow
  rw [processCandidate_eq_dispatch sendOk ps e hg hskip]
  have hcf : ((PState.mk ps.store (e.id :: ps.guard) ps.sent ps.failed
      ((ps.trace ++ [Eff.acquire e.id]) ++ [Eff.reread e.id])).store.events.any
        fun x => decide (x.id = e.id)) = true := by
    refine List.any_eq_true.mpr ⟨r, hrm.1, ?_⟩
    exact decide_eq_true hrm.2
  rcases candidateDispatch_shape sendOk e
    (PState.mk ps.store (e.id :: ps.guard) ps.sent ps.failed
      ((ps.trace ++ [Eff.acquire e.id]) ++ [Eff.reread e.id])) with
    ⟨extra, rest, hev, hpr, _, _, hgd, _, _⟩
  have hrun := candidateDispatch_run sendOk e
    (PState.mk ps.store (e.id :: ps.guard) ps.sent ps.failed
      ((ps.trace ++ [Eff.acquire e.id]) ++ [Eff.reread e.id])) p hcf hprof hph huid
  refine ⟨?_, hrun, hpr, ?_, ?_⟩
  · show findBy EventRow.id e.id (candidateDispatch sendOk e _).store.events = _
    rw [hev, findBy_updateBy_eq EventRow.id (setNotified (some "Yes")) e.id
      (setNotified_id (some "Yes"))]
    show (findBy EventRow.id e.id ps.store.events).map (setNotified (some "Yes")) = _
    rw [hrow]
    rfl
  · show (candidateDispatch sendOk e _).store.events.map EventRow.id = _
    rw [hev]
    exact map_key_updateBy EventRow.id (setNotified (some "Yes")) e.id
      (setNotified_id (some "Yes")) ps.store.events
  · show ((candidateDispatch sendOk e _).guard).erase e.id = ps.guard
    rw [hgd]
    exact List.erase_cons_head e.id ps.guard

/-- Main effect of the first tick on a due pending event: its row is rewritten
to `'Yes'` and exactly one notification record for it is created. -/
theorem tick_run (sendOk : String → String → Bool) (today : Int) (s : Store)
    (e : EventRow) (p : Profile)
    (hmem : e ∈ s.events) (hpend : pendingN e.notified = true)
    (hdate : today = notification_date e)
    (hnd : (s.events.map EventRow.id).Nodup)
    (hprof : findBy Profile.id e.user_id s.profiles = some p)
    (hph : ¬(p.phone_number = none ∨ p.phone_number = some ""))
    (huid : e.user_id ≠ "") :
    findBy EventRow.id e.id
        (check_and_send_notifications sendOk today s).store.events =
      some (setNotified (some "Yes") e) ∧
    recFor (check_and_send_notifications sendOk today s).store e.id =
      recFor s e.id + 1 ∧
    (check_and_send_notifications sendOk today s).store.profiles = s.profiles ∧
    (check_and_send_notifications sendOk today s).store.events.map EventRow.id =
      s.events.map EventRow.id := by
  have hsnap : e ∈ tickSnapshot s := List.mem_filter.mpr ⟨hmem, hpend⟩
  have hcand : e ∈ (tickSnapshot s).filter (fun x => today = notification_date x) :=
    List.mem_filter.mpr ⟨hsnap, decide_eq_true hdate⟩
  have hsnapsub : ∀ x ∈ tickSnapshot s, x ∈ s.events :=
    fun x hx => (List.mem_filter.mp hx).1
  have hinj : ∀ x ∈ s.events, x.id = e.id → x = e :=
    fun x hx hxe => key_inj_of_nodup EventRow.id s.events hnd x e hx hmem hxe
  -- Invariant through the expiry pass.
  set P : PState → Prop := fun ps =>
    findBy EventRow.id e.id ps.store.events = some e ∧
    recFor ps.store e.id = recFor s e.id ∧
    ps.store.profiles = s.profiles ∧
    ps.store.events.map EventRow.id = s.events.map EventRow.id ∧
    ps.guard = [] with hPdef
  have hrow0 : findBy EventRow.id e.id s.events = some e := by
    have := findBy_of_mem EventRow.id s.events hnd e hmem
    exact this
  have h1 : P ((tickSnapshot s).foldl (expiryStep today) ⟨s, [], 0, 0, []⟩) := by
    refine foldl_invariant (expiryStep today) P (tickSnapshot s) ⟨s, [], 0, 0, []⟩
      ⟨hrow0, rfl, rfl, rfl, rfl⟩ ?_
    intro ps x hx hps
    by_cases hxe : x = e
    · subst hxe
      rw [expiryStep_eq_candidate today ps x hdate]
      exact hps
    · have hne : ¬ x.id = e.id := fun hc => hxe (hinj x (hsnapsub x hx) hc)
      rcases expiryStep_shape today ps x with ⟨suffix, hpr, hnot, hgd, _, _, hfind, hmap⟩
      refine ⟨(hfind e.id (fun hc => hne hc.symm)).trans hps.1,
        (recFor_congr ps.store (expiryStep today ps x).store e.id hnot).trans hps.2.1,
        hpr.trans hps.2.2.1, hmap.trans hps.2.2.2.1, hgd.trans hps.2.2.2.2⟩
  -- Split the candidate list around `e`.
  rcases List.append_of_mem hcand with ⟨l1, l2, hsplit⟩
  have hcnd : ((tickSnapshot s).filter (fun x => today = notification_date x)).Nodup := by
    refine List.Nodup.filter _ (List.Nodup.filter _ ?_)
    exact List.Nodup.of_map EventRow.id hnd
  rw [hsplit] at hcnd
  have hel1 : e ∉ l1 := by
    intro hc
    rcases List.nodup_append.mp hcnd with ⟨_, _, hdisj⟩
    exact hdisj hc (List.mem_cons_self e l2)
  have hel2 : e ∉ l2 := by
    rcases List.nodup_append.mp hcnd with ⟨_, hnd2, _⟩
    exact (List.nodup_cons.mp hnd2).1
  have hmem12 : ∀ x, x ∈ l1 ∨ x ∈ l2 → ¬ x.id = e.id := by
    intro x hx hc
    have hxc : x ∈ (tickSnapshot s).filter (fun y => today = notification_date y) := by
      rw [hsplit]
      rcases hx with h | h
      · exact List.mem_append.mpr (Or.inl h)
      · exact List.mem_append.mpr (Or.inr (List.mem_cons_of_mem e h))
    have hxe : x = e := hinj x (hsnapsub x (List.mem_filter.mp hxc).1) hc
    subst hxe
    rcases hx with h | h
    · exact hel1 h
    · exact hel2 h
  -- Invariant through the candidates processed before `e`.
  have hP1 : P (l1.foldl (processCandidate sendOk)
      ((tickSnapshot s).foldl (expiryStep today) ⟨s, [], 0, 0, []⟩)) := by
    refine foldl_invariant (processCandidate sendOk) P l1 _ h1 ?_
    intro ps x hx hps
    rcases processCandidate_shape sendOk ps x with ⟨suffix, hpr, hgd, _, _, hother, hmap⟩
    rcases hother e.id (fun hc => hmem12 x (Or.inl hx) hc.symm) with ⟨hfind, hrec⟩
    exact ⟨hfind.trans hps.1, hrec.trans hps.2.1, hpr.trans hps.2.2.1,
      hmap.trans hps.2.2.2.1, hgd.trans hps.2.2.2.2⟩
  -- State after `e` itself, then through the remaining candidates.
  set Q : PState → Prop := fun ps =>
    findBy EventRow.id e.id ps.store.events = some (setNotified (some "Yes") e) ∧
    recFor ps.store e.id = recFor s e.id + 1 ∧
    ps.store.profiles = s.profiles ∧
    ps.store.events.map EventRow.id = s.events.map EventRow.id with hQdef
  have hQfin : Q ((l1 ++ e :: l2).foldl (processCandidate sendOk)
      ((tickSnapshot s).foldl (expiryStep today) ⟨s, [], 0, 0, []⟩)) := by
    rw [List.foldl_append, List.foldl_cons]
    refine foldl_invariant (processCandidate sendOk) Q l2 _ ?_ ?_
    · have hg : e.id ∉ (l1.foldl (processCandidate sendOk)
          ((tickSnapshot s).foldl (expiryStep today) ⟨s, [], 0, 0, []⟩)).guard := by
        rw [hP1.2.2.2.2]
        intro h
        cases h
      have hprof2 : findBy Profile.id e.user_id (l1.foldl (processCandidate sendOk)
          ((tickSnapshot s).foldl (expiryStep today) ⟨s, [], 0, 0, []⟩)).store.profiles =
          some p := by
        rw [hP1.2.2.1]
        exact hprof
      have hnp2 : e.notified = none ∨ e.notified = some "" ∨ e.notified = some "No" := by
        rcases (of_decide_eq_true hpend : e.notified = none ∨ e.notified = some "") with
          h | h
        · exact Or.inl h
        · exact Or.inr (Or.inl h)
      have hrun := processCandidate_run sendOk _ e e p hg hP1.1 hnp2 hprof2 hph huid
      refine ⟨hrun.1, ?_, hrun.2.2.1.trans hP1.2.2.1, hrun.2.2.2.1.trans hP1.2.2.2.1⟩
      rw [hrun.2.1, hP1.2.1]
    · intro ps x hx hps
      rcases processCandidate_shape sendOk ps x with ⟨suffix, hpr, _, _, _, hother, hmap⟩
      rcases hother e.id (fun hc => hmem12 x (Or.inr hx) hc.symm) with ⟨hfind, hrec⟩
      exact ⟨hfind.trans hps.1, hrec.trans hps.2.1, hpr.trans hps.2.2.1,
        hmap.trans hps.2.2.2⟩
  have htick : check_and_send_notifications sendOk today s =
      (l1 ++ e :: l2).foldl (processCandidate sendOk)
        ((tickSnapshot s).foldl (expiryStep today) ⟨s, [], 0, 0, []⟩) := by
    unfold check_and_send_notifications
    rw [hsplit]
  rw [htick]
  exact ⟨hQfin.1, hQfin.2.1, hQfin.2.2.1, hQfin.2.2.2⟩

/-- Sequential idempotence: a second tick is a no-op for an event the first
tick dispatched. -/
theorem tick_twice_run (sendOk sendOk2 : String → String → Bool) (today today2 : Int)
    (s : Store) (e : EventRow) (p : Profile)
    (hmem : e ∈ s.events) (hpend : pendingN e.notified = true)
    (hdate : today = notification_date e)
    (hnd : (s.events.map EventRow.id).Nodup)
    (hprof : findBy Profile.id e.user_id s.profiles = some p)
    (hph : ¬(p.phone_number = none ∨ p.phone_number = some ""))
    (huid : e.user_id ≠ "") :
    recFor (check_and_send_notifications sendOk2 today2
        (check_and_send_notifications sendOk today s).store).store e.id =
      recFor s e.id + 1 ∧
    eventNotified (check_and_send_notifications sendOk2 today2
        (check_and_send_notifications sendOk today s).store).store e.id =
      some (some "Yes") := by
  rcases tick_run sendOk today s e p hmem hpend hdate hnd hprof hph huid with
    ⟨hfind1, hrec1, _, hmap1⟩
  have hnd1 : ((check_and_send_notifications sendOk today s).store.events.map
      EventRow.id).Nodup := by
    rw [hmap1]
    exact hnd
  have hnp1 : pendingN (setNotified (some "Yes") e).notified = false := by
    rfl
  rcases tick_preserves_row sendOk2 today2
    (check_and_send_notifications sendOk today s).store e.id
    (setNotified (some "Yes") e) hnd1 hfind1 hnp1 with ⟨hfind2, hrec2, _, _⟩
  refine ⟨hrec2.trans hrec1, ?_⟩
  unfold eventNotified eventRow
  rw [hfind2]
  rfl

/-! ## Two concurrent runners on one candidate event

`check_and_send_notifications` may run concurrently (timer thread plus the
manual `/check-notifications` trigger).  The following small-step system is
the projection of the per-candidate section (lines 148–212) onto the state a
second runner of the *same* candidate can observe: the guard bit for the
event id (the `processing_events` set with `processing_lock` making
check-and-insert atomic), the event's `notified` column, and the count of
notification records for the event.  Each runner executes the atomic
operations of the loop body in order; the claim's happy-path hypotheses
(row present, profile resolvable, truthy `user_id`) are baked in, and a
failed Twilio send still logs one (failed) record, so the record count is
oracle-independent. -/

inductive RunnerPC where
  | tryAcq | reread | mark | profile | send | rel | done
deriving DecidableEq, Repr

structure CState where
  guard : Bool
  notified : Option String
  recs : Nat
  pc1 : RunnerPC
  pc2 : RunnerPC
deriving DecidableEq, Repr

/-- One atomic step of the runner selected by `which` (`true` = runner 1). -/
def cstep (which : Bool) (c : CState) : CState :=
  let pc := if which then c.pc1 else c.pc2
  let setPC : CState → RunnerPC → CState := fun st v =>
    if which then { st with pc1 := v } else { st with pc2 := v }
  match pc with
  | .tryAcq =>
      if c.guard then setPC c .done
      else setPC { c with guard := true } .reread
  | .reread =>
      if ¬(c.notified = none ∨ c.notified = some "" ∨ c.notified = some "No") then
        setPC c .rel
      else setPC c .mark
  | .mark => setPC { c with notified := some "Yes" } .profile
  | .profile => setPC c .send
  | .send => setPC { c with recs := c.recs + 1 } .rel
  | .rel => setPC { c with guard := false } .done
  | .done => c

/-- Run a schedule (a list of runner choices). -/
def cexec (sched : List Bool) (c : CState) : CState :=
  sched.foldl (fun st b => cstep b st) c

/-- Let both runners run to completion (six steps each suffice). -/
def cfinish (c : CState) : CState :=
  cexec (List.replicate 6 true ++ List.replicate 6 false) c

/-- Initial state: guard free, `notified` pending, no records, both runners
at the start of the loop body. -/
def cinit (pending0 : Option String) : CState :=
  ⟨false, pending0, 0, .tryAcq, .tryAcq⟩

/-- All states reachable from `c` in at most `n` expansion rounds. -/
def creach (n : Nat) (c : CState) : List CState :=
  Nat.rec [c] (fun _ acc => (acc ++ acc.flatMap
    (fun x => [cstep true x, cstep false x])).dedup) n

def goodC (c : CState) : Bool :=
  c.recs = 1 ∧ c.notified = some "Yes"

theorem creach_invariant (R : List CState)
    (hclo : R.all (fun c => decide (cstep true c ∈ R) &&
      decide (cstep false c ∈ R)) = true)
    (c0 : CState) (h0 : c0 ∈ R) (sched : List Bool) : cexec sched c0 ∈ R := by
  refine foldl_invariant (fun st b => cstep b st) (fun st => st ∈ R) sched c0 h0 ?_
  intro st b _ hst
  have hb := List.all_eq_true.mp hclo st hst
  rcases (Bool.and_eq_true _ _).mp hb with ⟨h1, h2⟩
  cases b
  · exact of_decide_eq_true h2
  · exact of_decide_eq_true h1

/-- Under every interleaving of two runners on the same pending candidate,
the completed system has exactly one notification record and `notified`
ends `'Yes'`. -/
theorem conc_two_runners_good (sched : List Bool) (p : Option String)
    (hp : pendingN p = true) :
    goodC (cfinish (cexec sched (cinit p))) = true := by
  rcases (of_decide_eq_true hp : p = none ∨ p = some "") with h | h <;> subst h
  · have hclo : (creach 13 (cinit none)).all
        (fun c => decide (cstep true c ∈ creach 13 (cinit none)) &&
          decide (cstep false c ∈ creach 13 (cinit none))) = true := by decide
    have hgood : (creach 13 (cinit none)).all (fun c => goodC (cfinish c)) = true := by
      decide
    have h0 : cinit none ∈ creach 13 (cinit none) := by decide
    exact List.all_eq_true.mp hgood _ (creach_invariant _ hclo _ h0 sched)
  · have hclo : (creach 13 (cinit (some ""))).all
        (fun c => decide (cstep true c ∈ creach 13 (cinit (some ""))) &&
          decide (cstep false c ∈ creach 13 (cinit (some "")))) = true := by decide
    have hgood : (creach 13 (cinit (some ""))).all
        (fun c => goodC (cfinish c)) = true := by decide
    have h0 : cinit (some "") ∈ creach 13 (cinit (some "")) := by decide
    exact List.all_eq_true.mp hgood _ (creach_invariant _ hclo _ h0 sched)

/-! ## Claim C1 -/

/-- C1: For every event whose notification date (`event_date - days_to_notify`)
equals today and whose `notified` field is pending (null or empty), running
the reminder check twice — repeatedly (two sequential ticks, first conjunct)
or concurrently (every interleaving of two runners of the per-event section,
second conjunct) — creates exactly one NotificationRecord for that event and
leaves its `notified` field equal to `"Yes"`; the second run is a no-op for
that event.  (Happy-path hypotheses: unique ids, resolvable profile with a
phone number, truthy `user_id`.) -/
theorem C1_reminder_at_most_once (sendOk sendOk2 : String → String → Bool)
    (today today2 : Int) (s : Store) (e : EventRow) (p : Profile)
    (hmem : e ∈ s.events) (hpend : pendingN e.notified = true)
    (hdate : today = notification_date e)
    (hnd : (s.events.map EventRow.id).Nodup)
    (hprof : findBy Profile.id e.user_id s.profiles = some p)
    (hph : ¬(p.phone_number = none ∨ p.phone_number = some ""))
    (huid : e.user_id ≠ "") :
    (recFor (check_and_send_notifications sendOk2 today2
        (check_and_send_notifications sendOk today s).store).store e.id =
      recFor s e.id + 1 ∧
    eventNotified (check_and_send_notifications sendOk2 today2
        (check_and_send_notifications sendOk today s).store).store e.id =
      some (some "Yes")) ∧
    (∀ sched : List Bool, ∀ p0 : Option String, pendingN p0 = true →
      goodC (cfinish (cexec sched (cinit p0))) = true) :=
  ⟨tick_twice_run sendOk sendOk2 today today2 s e p hmem hpend hdate hnd hprof
      hph huid,
    fun sched p0 hp0 => conc_two_runners_good sched p0 hp0⟩

/-- Concrete data for witnesses: an event due on day 8, its user's profile,
and an always-succeeding Twilio oracle. -/
def wOracle : String → String → Bool := fun _ _ => true

def wEvent : EventRow := ⟨1, "exam", 10, 2, "deadline", "u1", none⟩

def wProfile : Profile := ⟨"u1", some "Ann", some "+111"⟩

def wStore : Store := ⟨[wEvent], [wProfile], []⟩

theorem C1_reminder_at_most_once_witness :
    (recFor (check_and_send_notifications wOracle 8
        (check_and_send_notifications wOracle 8 wStore).store).store 1 =
      recFor wStore 1 + 1 ∧
    eventNotified (check_and_send_notifications wOracle 8
        (check_and_send_notifications wOracle 8 wStore).store).store 1 =
      some (some "Yes")) ∧
    goodC (cfinish (cexec [true, false, true, false] (cinit none))) = true :=
  ⟨(C1_reminder_at_most_once wOracle wOracle 8 8 wStore wEvent wProfile
      (by decide) (by decide) (by decide) (by decide) (by decide) (by decide)
      (by decide)).1,
    (C1_reminder_at_most_once wOracle wOracle 8 8 wStore wEvent wProfile
      (by decide) (by decide) (by decide) (by decide) (by decide) (by decide)
      (by decide)).2 [true, false, true, false] none (by decide)⟩

/-! ## Claim C2 -/

/-- A store in which event 1 was concurrently expired to `'No'` after a
runner fetched it as pending: the state the double-check re-read observes. -/
def C2store : Store :=
  ⟨[⟨1, "exam", 10, 2, "deadline", "u1", some "No"⟩], [wProfile], []⟩

def C2ps : PState := ⟨C2store, [], 0, 0, []⟩

/-- C2 counterexample: the claim says the runner skips the dispatch, writing
nothing, whenever the re-read `notified` is no longer pending.  Here the
re-read value is `"No"` — not pending — yet the per-candidate section
dispatches: it overwrites `notified` with `"Yes"` and logs a record, because
the code's allow-list is `[None, '', 'No']`, which treats `'No'` as still
eligible. -/
theorem C2_notified_monotone_counterexample :
    pendingN (some "No") = false ∧
    eventNotified (processCandidate wOracle C2ps wEvent).store 1 =
      some (some "Yes") ∧
    recFor (processCandidate wOracle C2ps wEvent).store 1 = 1 := by
  exact ⟨rfl, by decide, by decide⟩

/-- C2 amended: `notified` never transitions away from `"Yes"` (a tick leaves
a `"Yes"` row at `"Yes"`), and after acquiring the guard the runner re-reads
`notified` and skips the dispatch, writing nothing, whenever the re-read
value is neither pending **nor `"No"`** — a re-read value of `"No"` is
treated as still eligible and is overwritten to `"Yes"` (see the
counterexample). -/
theorem C2_notified_monotone_amended :
    (∀ (sendOk : String → String → Bool) (today : Int) (s : Store) (i : Nat)
      (r : EventRow), (s.events.map EventRow.id).Nodup →
      findBy EventRow.id i s.events = some r → r.notified = some "Yes" →
      eventNotified (check_and_send_notifications sendOk today s).store i =
        some (some "Yes")) ∧
    (∀ (sendOk : String → String → Bool) (ps : PState) (e : EventRow)
      (r : EventRow), e.id ∉ ps.guard →
      findBy EventRow.id e.id ps.store.events = some r →
      ¬(r.notified = none ∨ r.notified = some "" ∨ r.notified = some "No") →
      (processCandidate sendOk ps e).store = ps.store) := by
  constructor
  · intro sendOk today s i r hnd hrow hyes
    have hnp : pendingN r.notified = false := by
      rw [hyes]
      rfl
    rcases tick_preserves_row sendOk today s i r hnd hrow hnp with ⟨hfind, _, _, _⟩
    unfold eventNotified eventRow
    rw [hfind]
    simp [hyes]
  · intro sendOk ps e r hg hrow hnsk
    have hskip : doubleCheckSkips (findBy EventRow.id e.id ps.store.events) = true := by
      rw [hrow]
      unfold doubleCheckSkips
      exact decide_eq_true hnsk
    rw [processCandidate_eq_skip sendOk ps e hg hskip]

/-- A store whose only event is already marked `"Yes"`. -/
def C2yesStore : Store :=
  ⟨[⟨1, "exam", 10, 2, "deadline", "u1", some "Yes"⟩], [wProfile], []⟩

def C2yesPs : PState := ⟨C2yesStore, [], 0, 0, []⟩

theorem C2_notified_monotone_amended_witness :
    eventNotified (check_and_send_notifications wOracle 8 C2yesStore).store 1 =
      some (some "Yes") ∧
    (processCandidate wOracle C2yesPs
      ⟨1, "exam", 10, 2, "deadline", "u1", some "Yes"⟩).store = C2yesStore :=
  ⟨C2_notified_monotone_amended.1 wOracle 8 C2yesStore 1
      ⟨1, "exam", 10, 2, "deadline", "u1", some "Yes"⟩ (by decide) (by decide) rfl,
    C2_notified_monotone_amended.2 wOracle C2yesPs
      ⟨1, "exam", 10, 2, "deadline", "u1", some "Yes"⟩
      ⟨1, "exam", 10, 2, "deadline", "u1", some "Yes"⟩ (by decide) (by decide)
      (by decide)⟩

/-! ## Claim C4 -/

/-- Ids whose `'Yes'` write has been performed and confirmed, accumulated
along a trace. -/
def marksAcc : List Eff → List Nat → List Nat
  | [], acc => acc
  | Eff.markYes i true :: rest, acc => marksAcc rest (i :: acc)
  | _ :: rest, acc => marksAcc rest acc

/-- Scanner: every `send` effect in the trace concerns an event whose
confirmed `'Yes'` write occurred earlier in the trace. -/
def sendsAfterMark : List Eff → List Nat → Bool
  | [], _ => true
  | Eff.send i _ :: rest, acc => decide (i ∈ acc) && sendsAfterMark rest acc
  | Eff.markYes i true :: rest, acc => sendsAfterMark rest (i :: acc)
  | _ :: rest, acc => sendsAfterMark rest acc

theorem sendsAfterMark_append (t1 t2 : List Eff) (acc : List Nat) :
    sendsAfterMark (t1 ++ t2) acc =
      (sendsAfterMark t1 acc && sendsAfterMark t2 (marksAcc t1 acc)) := by
  induction t1 generalizing acc with
  | nil => simp [sendsAfterMark, marksAcc]
  | cons f rest ih =>
      cases f with
      | markNo i => simp [sendsAfterMark, marksAcc, ih]
      | skipHeld i => simp [sendsAfterMark, marksAcc, ih]
      | acquire i => simp [sendsAfterMark, marksAcc, ih]
      | reread i => simp [sendsAfterMark, marksAcc, ih]
      | markYes i conf =>
          cases conf <;> simp [sendsAfterMark, marksAcc, ih]
      | send i ok => simp [sendsAfterMark, marksAcc, ih, Bool.and_assoc]
      | release i => simp [sendsAfterMark, marksAcc, ih]

theorem processCandidate_sends_after_mark (sendOk : String → String → Bool)
    (ps : PState) (c : EventRow)
    (h : sendsAfterMark ps.trace [] = true) :
    sendsAfterMark (processCandidate sendOk ps c).trace [] = true := by
  by_cases hg : c.id ∈ ps.guard
  · rw [processCandidate_eq_held sendOk ps c hg, sendsAfterMark_append, h]
    rfl
  · by_cases hskip : doubleCheckSkips (findBy EventRow.id c.id ps.store.events) = true
    · rw [processCandidate_eq_skip sendOk ps c hg hskip]
      show sendsAfterMark (((ps.trace ++ _) ++ _) ++ _) [] = true
      rw [sendsAfterMark_append, sendsAfterMark_append, sendsAfterMark_append, h]
      rfl
    · rw [processCandidate_eq_dispatch sendOk ps c hg (Bool.eq_false_iff.mpr hskip)]
      show sendsAfterMark ((candidateDispatch sendOk c _).trace ++ _) [] = true
      rw [sendsAfterMark_append]
      rcases candidateDispatch_shape sendOk c
        (PState.mk ps.store (c.id :: ps.guard) ps.sent ps.failed
          ((ps.trace ++ [Eff.acquire c.id]) ++ [Eff.reread c.id])) with
        ⟨extra, rest, _, _, _, _, _, htr, hrest⟩
      rw [htr]
      show (sendsAfterMark (((ps.trace ++ [Eff.acquire c.id]) ++ [Eff.reread c.id]) ++
        (Eff.markYes c.id _ :: rest)) _ && _) = true
      rw [sendsAfterMark_append, sendsAfterMark_append, sendsAfterMark_append, h]
      rcases hrest with hnil | ⟨hcf, b, hb⟩
      · subst hnil
        cases hconf : (ps.store.events.any fun x => decide (x.id = c.id)) <;>
          simp [sendsAfterMark, marksAcc]
      · subst hb
        rw [hcf]
        simp [sendsAfterMark, marksAcc]

theorem expiryStep_sends_after_mark (today : Int) (ps : PState) (e : EventRow)
    (h : sendsAfterMark ps.trace [] = true) :
    sendsAfterMark (expiryStep today ps e).trace [] = true := by
  rcases expiryStep_shape today ps e with ⟨suffix, _, _, _, htr, hsuf, _, _⟩
  rw [htr, sendsAfterMark_append, h]
  rcases hsuf with h2 | h2 <;> subst h2 <;> rfl

/-- C4: In the reminder scheduler, no delivery attempt occurs for an event
unless the confirmed `notified = 'Yes'` write for that event already happened
(first conjunct: every `send` effect in a tick's trace is preceded by a
confirmed `markYes` for the same event id); and if the write does not confirm
success — the update matched no row — the event is counted as failed and
delivery is skipped (second conjunct: `failed` increments, no notification
record is logged, and the per-candidate trace contains no `send` effect). -/
theorem C4_mark_before_send :
    (∀ (sendOk : String → String → Bool) (today : Int) (s : Store),
      sendsAfterMark (check_and_send_notifications sendOk today s).trace [] = true) ∧
    (∀ (sendOk : String → String → Bool) (ps : PState) (e : EventRow),
      e.id ∉ ps.guard → (∀ x ∈ ps.store.events, ¬ x.id = e.id) →
      (processCandidate sendOk ps e).failed = ps.failed + 1 ∧
      (processCandidate sendOk ps e).sent = ps.sent ∧
      (processCandidate sendOk ps e).store.notifications = ps.store.notifications ∧
      (processCandidate sendOk ps e).trace = ps.trace ++
        [Eff.acquire e.id, Eff.reread e.id, Eff.markYes e.id false,
          Eff.release e.id]) := by
  constructor
  · intro sendOk today s
    unfold check_and_send_notifications
    refine foldl_invariant (processCandidate sendOk)
      (fun ps => sendsAfterMark ps.trace [] = true) _ _ ?_ ?_
    · refine foldl_invariant (expiryStep today)
        (fun ps => sendsAfterMark ps.trace [] = true) _ _ rfl ?_
      intro ps x _ hps
      exact expiryStep_sends_after_mark today ps x hps
    · intro ps x _ hps
      exact processCandidate_sends_after_mark sendOk ps x hps
  · intro sendOk ps e hg hno
    have hfind : findBy EventRow.id e.id ps.store.events = none := by
      unfold findBy
      refine List.find?_eq_none.mpr ?_
      intro x hx
      simp [hno x hx]
    have hskip : doubleCheckSkips (findBy EventRow.id e.id ps.store.events) = false := by
      rw [hfind]
      rfl
    rw [processCandidate_eq_dispatch sendOk ps e hg hskip]
    have hcf : ((PState.mk ps.store (e.id :: ps.guard) ps.sent ps.failed
        ((ps.trace ++ [Eff.acquire e.id]) ++ [Eff.reread e.id])).store.events.any
          fun x => decide (x.id = e.id)) = false := by
      refine Bool.eq_false_iff.mpr ?_
      intro hc
      rcases List.any_eq_true.mp hc with ⟨x, hx, hxd⟩
      exact hno x hx (of_decide_eq_true hxd)
    rw [candidateDispatch_eq_unconfirmed sendOk e _ hcf]
    refine ⟨rfl, rfl, rfl, ?_⟩
    simp [List.erase_cons_head]

theorem C4_mark_before_send_witness :
    sendsAfterMark (check_and_send_notifications wOracle 8 wStore).trace [] = true ∧
    ((processCandidate wOracle ⟨⟨[], [], []⟩, [], 0, 0, []⟩ wEvent).failed = 0 + 1 ∧
    (processCandidate wOracle ⟨⟨[], [], []⟩, [], 0, 0, []⟩ wEvent).sent = 0 ∧
    (processCandidate wOracle ⟨⟨[], [], []⟩, [], 0, 0, []⟩ wEvent).store.notifications =
      [] ∧
    (processCandidate wOracle ⟨⟨[], [], []⟩, [], 0, 0, []⟩ wEvent).trace = [] ++
      [Eff.acquire 1, Eff.reread 1, Eff.markYes 1 false, Eff.release 1]) :=
  ⟨C4_mark_before_send.1 wOracle 8 wStore,
    C4_mark_before_send.2 wOracle ⟨⟨[], [], []⟩, [], 0, 0, []⟩ wEvent (by decide)
      (by decide)⟩

/-! ## Claim C5 -/

/-- C5: an event with `notified` pending whose notification date is strictly
before today is marked `'No'` by one tick without acquiring the guard
(the trace contains no `acquire` for its id), and no notification record is
created for it. -/
theorem C5_expired_marked_no (sendOk : String → String → Bool) (today : Int)
    (s : Store) (e : EventRow)
    (hmem : e ∈ s.events) (hpend : pendingN e.notified = true)
    (hlt : notification_date e < today)
    (hnd : (s.events.map EventRow.id).Nodup) :
    eventNotified (check_and_send_notifications sendOk today s).store e.id =
      some (some "No") ∧
    recFor (check_and_send_notifications sendOk today s).store e.id =
      recFor s e.id ∧
    ∀ f ∈ (check_and_send_notifications sendOk today s).trace,
      ¬ f = Eff.acquire e.id := by
  have hsnap : e ∈ tickSnapshot s := List.mem_filter.mpr ⟨hmem, hpend⟩
  have hsnapsub : ∀ x ∈ tickSnapshot s, x ∈ s.events :=
    fun x hx => (List.mem_filter.mp hx).1
  have hinj : ∀ x ∈ s.events, x.id = e.id → x = e :=
    fun x hx hxe => key_inj_of_nodup EventRow.id s.events hnd x e hx hmem hxe
  have hne : ¬ today = notification_date e := by
    intro hc
    rw [hc] at hlt
    exact lt_irrefl _ hlt
  rcases List.append_of_mem hsnap with ⟨m1, m2, hsplit⟩
  have hsnd : (tickSnapshot s).Nodup :=
    List.Nodup.filter _ (List.Nodup.of_map EventRow.id hnd)
  have hem : e ∉ m1 ∧ e ∉ m2 := by
    rw [hsplit] at hsnd
    rcases List.nodup_append.mp hsnd with ⟨_, hnd2, hdisj⟩
    exact ⟨fun hc => hdisj hc (List.mem_cons_self e m2), (List.nodup_cons.mp hnd2).1⟩
  have hm12 : ∀ x, x ∈ m1 ∨ x ∈ m2 → ¬ x.id = e.id := by
    intro x hx hc
    have hxs : x ∈ tickSnapshot s := by
      rw [hsplit]
      rcases hx with h | h
      · exact List.mem_append.mpr (Or.inl h)
      · exact List.mem_append.mpr (Or.inr (List.mem_cons_of_mem e h))
    have := hinj x (hsnapsub x hxs) hc
    subst this
    rcases hx with h | h
    · exact hem.1 h
    · exact hem.2 h
  set P : PState → Prop := fun ps =>
    findBy EventRow.id e.id ps.store.events = some e ∧
    recFor ps.store e.id = recFor s e.id ∧
    (∀ f ∈ ps.trace, ¬ f = Eff.acquire e.id) with hPdef
  set Q : PState → Prop := fun ps =>
    findBy EventRow.id e.id ps.store.events = some (setNotified (some "No") e) ∧
    recFor ps.store e.id = recFor s e.id ∧
    (∀ f ∈ ps.trace, ¬ f = Eff.acquire e.id) with hQdef
  have hexp : ∀ (ps : PState) (x : EventRow), ¬ x.id = e.id →
      (∀ v, findBy EventRow.id e.id ps.store.events = v →
        findBy EventRow.id e.id (expiryStep today ps x).store.events = v) ∧
      recFor (expiryStep today ps x).store e.id = recFor ps.store e.id ∧
      (∀ f ∈ (expiryStep today ps x).trace,
        f ∈ ps.trace ∨ f = Eff.markNo x.id) := by
    intro ps x hxe
    rcases expiryStep_shape today ps x with ⟨suffix, _, hnot, _, htr, hsuf, hfind, _⟩
    refine ⟨fun v hv => (hfind e.id (fun hc => hxe hc.symm)).trans hv,
      recFor_congr ps.store (expiryStep today ps x).store e.id hnot, ?_⟩
    intro f hf
    rw [htr] at hf
    rcases List.mem_append.mp hf with h | h
    · exact Or.inl h
    · rcases hsuf with h2 | h2 <;> subst h2
      · cases h
      · exact Or.inr (List.mem_singleton.mp h)
  have hP1 : P (m1.foldl (expiryStep today) ⟨s, [], 0, 0, []⟩) := by
    refine foldl_invariant (expiryStep today) P m1 _
      ⟨findBy_of_mem EventRow.id s.events hnd e hmem, rfl, by intro f hf; cases hf⟩ ?_
    intro ps x hx hps
    rcases hexp ps x (hm12 x (Or.inl hx)) with ⟨hfind, hrec, htrc⟩
    refine ⟨hfind _ hps.1, hrec.trans hps.2.1, ?_⟩
    intro f hf
    rcases htrc f hf with h | h
    · exact hps.2.2 f h
    · subst h
      intro hc
      exact Eff.noConfusion hc
  have hQe : Q (expiryStep today (m1.foldl (expiryStep today) ⟨s, [], 0, 0, []⟩) e) := by
    rw [expiryStep_eq_expired today _ e hne hlt]
    refine ⟨?_, ?_, ?_⟩
    · show findBy EventRow.id e.id (updateBy EventRow.id (setNotified (some "No"))
        e.id _) = _
      rw [findBy_updateBy_eq EventRow.id (setNotified (some "No")) e.id
        (setNotified_id (some "No")), hP1.1]
      rfl
    · exact hP1.2.1
    · intro f hf
      rcases List.mem_append.mp hf with h | h
      · exact hP1.2.2 f h
      · rcases List.mem_singleton.mp h with h2
        subst h2
        intro hc
        exact Eff.noConfusion hc
  have hQ2 : Q (m2.foldl (expiryStep today)
      (expiryStep today (m1.foldl (expiryStep today) ⟨s, [], 0, 0, []⟩) e)) := by
    refine foldl_invariant (expiryStep today) Q m2 _ hQe ?_
    intro ps x hx hps
    rcases hexp ps x (hm12 x (Or.inr hx)) with ⟨hfind, hrec, htrc⟩
    refine ⟨hfind _ hps.1, hrec.trans hps.2.1, ?_⟩
    intro f hf
    rcases htrc f hf with h | h
    · exact hps.2.2 f h
    · subst h
      intro hc
      exact Eff.noConfusion hc
  have hinner : (tickSnapshot s).foldl (expiryStep today) ⟨s, [], 0, 0, []⟩ =
      m2.foldl (expiryStep today)
        (expiryStep today (m1.foldl (expiryStep today) ⟨s, [], 0, 0, []⟩) e) := by
    rw [hsplit, List.foldl_append, List.foldl_cons]
  have hQfin : Q (((tickSnapshot s).filter
      (fun x => today = notification_date x)).foldl (processCandidate sendOk)
        ((tickSnapshot s).foldl (expiryStep today) ⟨s, [], 0, 0, []⟩)) := by
    rw [hinner]
    refine foldl_invariant (processCandidate sendOk) Q _ _ hQ2 ?_
    intro ps x hx hps
    have hxid : ¬ x.id = e.id := by
      intro hc
      have hxs := List.mem_filter.mp hx
      have := hinj x (hsnapsub x hxs.1) hc
      subst this
      exact hne (of_decide_eq_true hxs.2)
    rcases processCandidate_shape sendOk ps x with ⟨suffix, _, _, htr, htag, hother, _⟩
    rcases hother e.id (fun hc => hxid hc.symm) with ⟨hfind, hrec⟩
    refine ⟨hfind.trans hps.1, hrec.trans hps.2.1, ?_⟩
    intro f hf
    rw [htr] at hf
    rcases List.mem_append.mp hf with h | h
    · exact hps.2.2 f h
    · intro hc
      have := htag f h
      rw [hc] at this
      exact hxid (this.symm ▸ rfl)
  unfold check_and_send_notifications eventNotified eventRow
  refine ⟨?_, hQfin.2.1, hQfin.2.2⟩
  rw [hQfin.1]
  rfl

/-- An expired pending event: notification date 5, checked on day 8. -/
def C5event : EventRow := ⟨2, "late", 7, 2, "deadline", "u1", some ""⟩

def C5store : Store := ⟨[C5event], [wProfile], []⟩

theorem C5_expired_marked_no_witness :
    eventNotified (check_and_send_notifications wOracle 8 C5store).store 2 =
      some (some "No") ∧
    recFor (check_and_send_notifications wOracle 8 C5store).store 2 =
      recFor C5store 2 ∧
    ∀ f ∈ (check_and_send_notifications wOracle 8 C5store).trace,
      ¬ f = Eff.acquire 2 :=
  C5_expired_marked_no wOracle 8 C5store C5event (by decide) (by decide)
    (by decide) (by decide)

/-! ## Data model of the fan-out dispatcher
(`messages`/`message_contact` and `rsvp`/`rsvp_contact_status`) -/

/-- A row of the `messages` table. -/
structure MessageRow where
  id : Nat
  content : Option String
  status : Option String
deriving DecidableEq, Repr

/-- A row of the `message_contact` table. -/
structure MContactRow where
  id : Nat
  message_id : Nat
  contact_phone : String
  status : Option String
deriving DecidableEq, Repr

/-- The tables `process_messages` touches. -/
structure MStore where
  messages : List MessageRow
  contacts : List MContactRow
deriving DecidableEq, Repr

/-- A row of the `rsvp` table. -/
structure RsvpRow where
  id : Nat
  title : Option String
  message : Option String
  status : Option String
deriving DecidableEq, Repr

/-- A row of the `rsvp_contact_status` table.  `status` holds the recorded
yes/no reply, written by `handle_rsvp_reply`. -/
structure RContactRow where
  id : Nat
  rsvp_id : Nat
  contact_phone : String
  invite_status : Option String
  status : Option String
deriving DecidableEq, Repr

/-- The tables `process_rsvp_messages` and `handle_rsvp_reply` touch. -/
structure RStore where
  rsvps : List RsvpRow
  rcontacts : List RContactRow
deriving DecidableEq, Repr

/-- One delivery attempt of a fan-out tick (`twilio_client.messages.create`
for one contact row), with its outcome. -/
inductive FEff where
  | attempt (contactId : Nat) (ok : Bool)
deriving DecidableEq, Repr

def setMStatus (v : Option String) (x : MessageRow) : MessageRow :=
  { x with status := v }

def setMCStatus (v : Option String) (x : MContactRow) : MContactRow :=
  { x with status := v }

def setRStatus (v : Option String) (x : RsvpRow) : RsvpRow :=
  { x with status := v }

def setRCInvite (v : Option String) (x : RContactRow) : RContactRow :=
  { x with invite_status := v }

def setRCResponse (v : Option String) (x : RContactRow) : RContactRow :=
  { x with status := v }

/-- Lines 294–318: one contact of a broadcast message: mark `'processing'`,
attempt the send (`sendOk`, keyed by the contact row id, abstracts whether
`twilio_client.messages.create` succeeds), then mark `'sent'` on success or
revert to the empty string on failure, clearing the `all_sent` flag. -/
def processContactM (sendOk : Nat → Bool) (acc : MStore × List FEff × Bool)
    (c : MContactRow) : MStore × List FEff × Bool :=
  let st : MStore := { acc.1 with
    contacts := updateBy MContactRow.id (setMCStatus (some "processing")) c.id
      acc.1.contacts }
  if sendOk c.id then
    ({ st with
        contacts := updateBy MContactRow.id (setMCStatus (some "sent")) c.id
          st.contacts },
      acc.2.1 ++ [FEff.attempt c.id true], acc.2.2)
  else
    ({ st with
        contacts := updateBy MContactRow.id (setMCStatus (some "")) c.id
          st.contacts },
      acc.2.1 ++ [FEff.attempt c.id false], false)

/-- The pending contact rows of message `mid`:
`.eq('message_id', mid).or_('status.is.null,status.eq.""')`. -/
def pendingContactsM (s : MStore) (mid : Nat) : List MContactRow :=
  s.contacts.filter (fun c => decide (c.message_id = mid) && pendingN c.status)

/-- Lines 279–324: one broadcast message of the tick: fetch its pending
contacts; if none, skip; otherwise attempt each and, when every attempt of
this pass succeeded (`all_sent`), mark the message `'sent'`. -/
def processMessageM (sendOk : Nat → Bool) (acc : MStore × List FEff)
    (m : MessageRow) : MStore × List FEff :=
  let contacts := pendingContactsM acc.1 m.id
  if contacts.isEmpty then acc
  else
    let res := contacts.foldl (processContactM sendOk) (acc.1, acc.2, true)
    if res.2.2 then
      ({ res.1 with
          messages := updateBy MessageRow.id (setMStatus (some "sent")) m.id
            res.1.messages },
        res.2.1)
    else (res.1, res.2.1)

/-- One tick of `process_messages` (lines 271–326). -/
def process_messages (sendOk : Nat → Bool) (s : MStore) : MStore × List FEff :=
  (s.messages.filter (fun m => pendingN m.status)).foldl (processMessageM sendOk)
    (s, [])

/-- Lines 240–261: one contact of an RSVP invite (same state machine on
`invite_status`). -/
def processContactR (sendOk : Nat → Bool) (acc : RStore × List FEff × Bool)
    (c : RContactRow) : RStore × List FEff × Bool :=
  let st : RStore := { acc.1 with
    rcontacts := updateBy RContactRow.id (setRCInvite (some "processing")) c.id
      acc.1.rcontacts }
  if sendOk c.id then
    ({ st with
        rcontacts := updateBy RContactRow.id (setRCInvite (some "sent")) c.id
          st.rcontacts },
      acc.2.1 ++ [FEff.attempt c.id true], acc.2.2)
  else
    ({ st with
        rcontacts := updateBy RContactRow.id (setRCInvite (some "")) c.id
          st.rcontacts },
      acc.2.1 ++ [FEff.attempt c.id false], false)

/-- The pending contact rows of RSVP `rid`. -/
def pendingContactsR (s : RStore) (rid : Nat) : List RContactRow :=
  s.rcontacts.filter (fun c => decide (c.rsvp_id = rid) && pendingN c.invite_status)

/-- Lines 225–266: one RSVP invite of the tick. -/
def processRsvpR (sendOk : Nat → Bool) (acc : RStore × List FEff)
    (r : RsvpRow) : RStore × List FEff :=
  let contacts := pendingContactsR acc.1 r.id
  if contacts.isEmpty then acc
  else
    let res := contacts.foldl (processContactR sendOk) (acc.1, acc.2, true)
    if res.2.2 then
      ({ res.1 with
          rsvps := updateBy RsvpRow.id (setRStatus (some "sent")) r.id res.1.rsvps },
        res.2.1)
    else (res.1, res.2.1)

/-- One tick of `process_rsvp_messages` (lines 218–268). -/
def process_rsvp_messages (sendOk : Nat → Bool) (s : RStore) : RStore × List FEff :=
  (s.rsvps.filter (fun r => pendingN r.status)).foldl (processRsvpR sendOk) (s, [])

/-- The `status` of the `messages` row with id `i`. -/
def msgStatus (s : MStore) (i : Nat) : Option (Option String) :=
  (findBy MessageRow.id i s.messages).map MessageRow.status

/-- The `status` of the `rsvp` row with id `i`. -/
def rsvpStatus (s : RStore) (i : Nat) : Option (Option String) :=
  (findBy RsvpRow.id i s.rsvps).map RsvpRow.status

/-! ## Fan-out lemmas (broadcast messages) -/

theorem updateBy_updateBy {α κ : Type} [DecidableEq κ] (key : α → κ)
    (upd1 upd2 : α → α) (i : κ) (l : List α)
    (hkey : ∀ x, key (upd1 x) = key x) :
    updateBy key upd2 i (updateBy key upd1 i l) =
      updateBy key (fun x => upd2 (upd1 x)) i l := by
  induction l with
  | nil => rfl
  | cons a l ih =>
      simp only [updateBy, List.map_cons] at *
      by_cases h : key a = i
      · rw [if_pos h]
        rw [if_pos ((hkey a).trans h), if_pos h, ih]
      · rw [if_neg h, if_neg h, if_neg h, ih]

theorem updateBy_congr {α κ : Type} [DecidableEq κ] (key : α → κ)
    (upd upd' : α → α) (i : κ) (l : List α) (h : ∀ x, upd x = upd' x) :
    updateBy key upd i l = updateBy key upd' i l := by
  unfold updateBy
  exact List.map_congr_left (fun x _ => by by_cases hx : key x = i <;> simp [hx, h])

theorem mem_updateBy_of_ne_key {α κ : Type} [DecidableEq κ] (key : α → κ)
    (upd : α → α) (i : κ) (l : List α) (x : α) (hx : x ∈ l) (hne : key x ≠ i) :
    x ∈ updateBy key upd i l := by
  induction l with
  | nil => cases hx
  | cons a l ih =>
      simp only [updateBy, List.map_cons]
      rcases List.mem_cons.mp hx with h | h
      · subst h
        rw [if_neg hne]
        exact List.mem_cons_self x _
      · exact List.mem_cons_of_mem _ (ih h)

/-- One contact step collapsed to a single row rewrite: the `'processing'`
write followed by `'sent'`/`''` equals one write of the final value; the
trace gains the attempt and `all_sent` keeps its value exactly when the send
succeeded. -/
theorem processContactM_eq (sendOk : Nat → Bool) (acc : MStore × List FEff × Bool)
    (c : MContactRow) :
    processContactM sendOk acc c =
      ({ acc.1 with
          contacts := updateBy MContactRow.id
            (setMCStatus (some (if sendOk c.id then "sent" else ""))) c.id
            acc.1.contacts },
        acc.2.1 ++ [FEff.attempt c.id (sendOk c.id)],
        acc.2.2 && sendOk c.id) := by
  unfold processContactM
  dsimp only
  by_cases h : sendOk c.id = true
  · rw [if_pos h, h]
    rw [updateBy_updateBy MContactRow.id (setMCStatus (some "processing"))
      (setMCStatus (some "sent")) c.id acc.1.contacts (fun x => rfl)]
    rw [updateBy_congr MContactRow.id
      (fun x => setMCStatus (some "sent") (setMCStatus (some "processing") x))
      (setMCStatus (some "sent")) c.id acc.1.contacts (fun x => rfl)]
    simp
  · rw [if_neg h, Bool.eq_false_iff.mpr h]
    rw [updateBy_updateBy MContactRow.id (setMCStatus (some "processing"))
      (setMCStatus (some "")) c.id acc.1.contacts (fun x => rfl)]
    rw [updateBy_congr MContactRow.id
      (fun x => setMCStatus (some "") (setMCStatus (some "processing") x))
      (setMCStatus (some "")) c.id acc.1.contacts (fun x => rfl)]
    simp

/-- The contact-id/message-id pair column, preserved by every status write. -/
def mcPair (c : MContactRow) : Nat × Nat := (c.id, c.message_id)

theorem map_fn_updateBy {α κ γ : Type} [DecidableEq κ] (key : α → κ) (g : α → γ)
    (upd : α → α) (i : κ) (l : List α) (hg : ∀ x, g (upd x) = g x) :
    (updateBy key upd i l).map g = l.map g := by
  induction l with
  | nil => rfl
  | cons a l ih =>
      simp only [updateBy, List.map_cons] at *
      by_cases h : key a = i
      · simp [h, hg, ih]
      · simp [h, ih]

theorem innerFoldM_basic (sendOk : Nat → Bool) (P0 : List MContactRow)
    (st : MStore) (tr : List FEff) (all : Bool) :
    (P0.foldl (processContactM sendOk) (st, tr, all)).1.messages = st.messages ∧
    (P0.foldl (processContactM sendOk) (st, tr, all)).2.1 =
      tr ++ P0.map (fun c => FEff.attempt c.id (sendOk c.id)) ∧
    (P0.foldl (processContactM sendOk) (st, tr, all)).2.2 =
      (all && P0.all (fun c => sendOk c.id)) ∧
    (P0.foldl (processContactM sendOk) (st, tr, all)).1.contacts.map mcPair =
      st.contacts.map mcPair ∧
    (∀ t, (∀ c ∈ P0, ¬ c.id = t) →
      findBy MContactRow.id t
          (P0.foldl (processContactM sendOk) (st, tr, all)).1.contacts =
        findBy MContactRow.id t st.contacts) := by
  induction P0 generalizing st tr all with
  | nil => exact ⟨rfl, by simp, by simp, rfl, fun t _ => rfl⟩
  | cons c P0 ih =>
      rw [List.foldl_cons, processContactM_eq]
      rcases ih { st with
          contacts := updateBy MContactRow.id
            (setMCStatus (some (if sendOk c.id then "sent" else ""))) c.id
            st.contacts }
        (tr ++ [FEff.attempt c.id (sendOk c.id)]) (all && sendOk c.id) with
        ⟨h1, h2, h3, h4, h5⟩
      refine ⟨h1, ?_, ?_, ?_, ?_⟩
      · rw [h2]
        simp
      · rw [h3]
        simp [Bool.and_assoc]
      · rw [h4]
        exact map_fn_updateBy MContactRow.id mcPair
          (setMCStatus (some (if sendOk c.id = true then "sent" else ""))) c.id
          st.contacts (fun x => rfl)
      · intro t ht
        rw [h5 t (fun c' hc' => ht c' (List.mem_cons_of_mem c hc'))]
        exact findBy_updateBy_ne MContactRow.id
          (setMCStatus (some (if sendOk c.id = true then "sent" else ""))) c.id t
          (fun x => rfl) (fun hc => ht c (List.mem_cons_self c P0) hc.symm)
          st.contacts

theorem pendingFilterM_updateBy (v : Option String) (i mid : Nat)
    (l : List MContactRow)
    (h : ∀ x ∈ l, x.id = i → ¬ x.message_id = mid) :
    (updateBy MContactRow.id (setMCStatus v) i l).filter
        (fun c => decide (c.message_id = mid) && pendingN c.status) =
      l.filter (fun c => decide (c.message_id = mid) && pendingN c.status) := by
  induction l with
  | nil => rfl
  | cons a l ih =>
      simp only [updateBy, List.map_cons, List.filter_cons] at *
      by_cases ha : a.id = i
      · have hm : ¬ a.message_id = mid := h a (List.mem_cons_self a l) ha
        rw [if_pos ha]
        have h1 : (decide ((setMCStatus v a).message_id = mid) && pendingN
            (setMCStatus v a).status) = false := by
          simp [setMCStatus, hm]
        have h2 : (decide (a.message_id = mid) && pendingN a.status) = false := by
          simp [hm]
        rw [h1, h2]
        exact ih (fun x hx hxi => h x (List.mem_cons_of_mem a hx) hxi)
      · rw [if_neg ha]
        by_cases hcond : (decide (a.message_id = mid) && pendingN a.status) = true
        · rw [hcond]
          rw [ih (fun x hx hxi => h x (List.mem_cons_of_mem a hx) hxi)]
        · rw [Bool.eq_false_iff.mpr hcond]
          exact ih (fun x hx hxi => h x (List.mem_cons_of_mem a hx) hxi)

theorem innerFoldM_filter (sendOk : Nat → Bool) (P0 : List MContactRow)
    (st : MStore) (tr : List FEff) (all : Bool) (mid : Nat)
    (hndP0 : (P0.map MContactRow.id).Nodup)
    (hndC : (st.contacts.map MContactRow.id).Nodup)
    (hsub : ∀ c ∈ P0, c ∈ st.contacts)
    (hmid : ∀ c ∈ P0, ¬ c.message_id = mid) :
    (P0.foldl (processContactM sendOk) (st, tr, all)).1.contacts.filter
        (fun c => decide (c.message_id = mid) && pendingN c.status) =
      st.contacts.filter (fun c => decide (c.message_id = mid) && pendingN c.status) := by
  induction P0 generalizing st tr all with
  | nil => rfl
  | cons c P0 ih =>
      rw [List.foldl_cons, processContactM_eq]
      have hstep : (updateBy MContactRow.id
          (setMCStatus (some (if sendOk c.id then "sent" else ""))) c.id
          st.contacts).filter
            (fun x => decide (x.message_id = mid) && pendingN x.status) =
          st.contacts.filter (fun x => decide (x.message_id = mid) && pendingN x.status) := by
        refine pendingFilterM_updateBy _ c.id mid st.contacts ?_
        intro x hx hxi
        have : x = c := key_inj_of_nodup MContactRow.id st.contacts hndC x c hx
          (hsub c (List.mem_cons_self c P0)) hxi
        subst this
        exact hmid x (List.mem_cons_self x P0)
      simp only [List.map_cons, List.nodup_cons] at hndP0
      have hndC2 : ((updateBy MContactRow.id
          (setMCStatus (some (if sendOk c.id then "sent" else ""))) c.id
          st.contacts).map MContactRow.id).Nodup := by
        rw [map_key_updateBy MContactRow.id
          (setMCStatus (some (if sendOk c.id = true then "sent" else ""))) c.id
          (fun x => rfl)]
        exact hndC
      have hsub2 : ∀ c' ∈ P0, c' ∈ updateBy MContactRow.id
          (setMCStatus (some (if sendOk c.id then "sent" else ""))) c.id
          st.contacts := by
        intro c' hc'
        refine mem_updateBy_of_ne_key MContactRow.id _ c.id st.contacts c'
          (hsub c' (List.mem_cons_of_mem c hc')) ?_
        intro hcid
        exact hndP0.1 (hcid ▸ List.mem_map_of_mem MContactRow.id hc')
      have := ih { st with
          contacts := updateBy MContactRow.id
            (setMCStatus (some (if sendOk c.id then "sent" else ""))) c.id
            st.contacts }
        (tr ++ [FEff.attempt c.id (sendOk c.id)]) (all && sendOk c.id)
        hndP0.2 hndC2 hsub2 (fun x hx => hmid x (List.mem_cons_of_mem c hx))
      rw [this]
      exact hstep

theorem innerFoldM_member (sendOk : Nat → Bool) (P0 : List MContactRow)
    (st : MStore) (tr : List FEff) (all : Bool) (c : MContactRow)
    (hc : c ∈ P0) (hndP0 : (P0.map MContactRow.id).Nodup)
    (hrow : findBy MContactRow.id c.id st.contacts = some c) :
    findBy MContactRow.id c.id
        (P0.foldl (processContactM sendOk) (st, tr, all)).1.contacts =
      some (setMCStatus (some (if sendOk c.id then "sent" else "")) c) := by
  rcases List.append_of_mem hc with ⟨a, b, hsplit⟩
  subst hsplit
  have hmap : (a.map MContactRow.id) ++ c.id :: (b.map MContactRow.id) =
      ((a ++ c :: b).map MContactRow.id) := by
    simp
  rw [← hmap] at hndP0
  rcases List.nodup_append.mp hndP0 with ⟨_, hnd2, hdisj⟩
  have ha : ∀ x ∈ a, ¬ x.id = c.id := by
    intro x hx hxc
    exact hdisj (hxc ▸ List.mem_map_of_mem MContactRow.id hx)
      (List.mem_cons_self c.id _)
  have hb : ∀ x ∈ b, ¬ x.id = c.id := by
    intro x hx hxc
    exact (List.nodup_cons.mp hnd2).1 (hxc ▸ List.mem_map_of_mem MContactRow.id hx)
  rw [List.foldl_append, List.foldl_cons]
  have hmid1 := (innerFoldM_basic sendOk a st tr all).2.2.2.2 c.id ha
  have hrow2 : findBy MContactRow.id c.id
      (a.foldl (processContactM sendOk) (st, tr, all)).1.contacts = some c :=
    hmid1.trans hrow
  have hAfter : findBy MContactRow.id c.id
      (processContactM sendOk (a.foldl (processContactM sendOk) (st, tr, all))
        c).1.contacts =
      some (setMCStatus (some (if sendOk c.id then "sent" else "")) c) := by
    rw [processContactM_eq]
    show findBy MContactRow.id c.id (updateBy MContactRow.id _ c.id
      (a.foldl (processContactM sendOk) (st, tr, all)).1.contacts) = _
    rw [findBy_updateBy_eq MContactRow.id
      (setMCStatus (some (if sendOk c.id = true then "sent" else ""))) c.id
      (fun x => rfl)]
    show (findBy MContactRow.id c.id
      (a.foldl (processContactM sendOk) (st, tr, all)).1.contacts).map _ = _
    rw [hrow2]
    rfl
  have hkeep := (innerFoldM_basic sendOk b
    (processContactM sendOk (a.foldl (processContactM sendOk) (st, tr, all)) c).1
    (processContactM sendOk (a.foldl (processContactM sendOk) (st, tr, all)) c).2.1
    (processContactM sendOk (a.foldl (processContactM sendOk) (st, tr, all))
      c).2.2).2.2.2.2 c.id hb
  exact hkeep.trans hAfter

theorem contacts_id_map_eq_of_pair (l l' : List MContactRow)
    (h : l'.map mcPair = l.map mcPair) :
    l'.map MContactRow.id = l.map MContactRow.id := by
  have h1 : l'.map MContactRow.id = (l'.map mcPair).map Prod.fst := by
    rw [List.map_map]
    rfl
  have h2 : l.map MContactRow.id = (l.map mcPair).map Prod.fst := by
    rw [List.map_map]
    rfl
  rw [h1, h2, h]

theorem pendingContactsM_sub (s : MStore) (mid : Nat) :
    ∀ c ∈ pendingContactsM s mid, c ∈ s.contacts ∧ c.message_id = mid ∧
      pendingN c.status = true := by
  intro c hc
  rcases List.mem_filter.mp hc with ⟨h1, h2⟩
  rcases (Bool.and_eq_true _ _).mp h2 with ⟨h3, h4⟩
  exact ⟨h1, of_decide_eq_true h3, h4⟩

theorem pendingContactsM_nodup (s : MStore) (mid : Nat)
    (hndC : (s.contacts.map MContactRow.id).Nodup) :
    ((pendingContactsM s mid).map MContactRow.id).Nodup :=
  List.Nodup.sublist (List.Sublist.map MContactRow.id (List.filter_sublist _)) hndC

/-- Processing a pending message other than `mid` leaves everything the
claims observe about message `mid` untouched. -/
theorem processMessageM_foreign (sendOk : Nat → Bool) (acc : MStore × List FEff)
    (m' : MessageRow) (mid : Nat) (hne : ¬ m'.id = mid)
    (hndC : (acc.1.contacts.map MContactRow.id).Nodup) :
    findBy MessageRow.id mid (processMessageM sendOk acc m').1.messages =
      findBy MessageRow.id mid acc.1.messages ∧
    pendingContactsM (processMessageM sendOk acc m').1 mid =
      pendingContactsM acc.1 mid ∧
    (∀ t r, findBy MContactRow.id t acc.1.contacts = some r → r.message_id = mid →
      findBy MContactRow.id t (processMessageM sendOk acc m').1.contacts =
        findBy MContactRow.id t acc.1.contacts) ∧
    (processMessageM sendOk acc m').1.contacts.map mcPair =
      acc.1.contacts.map mcPair ∧
    (processMessageM sendOk acc m').1.messages.map MessageRow.id =
      acc.1.messages.map MessageRow.id ∧
    (∃ suf, (processMessageM sendOk acc m').2 = acc.2 ++ suf) := by
  unfold processMessageM
  by_cases hempty : (pendingContactsM acc.1 m'.id).isEmpty = true
  · rw [if_pos hempty]
    exact ⟨rfl, rfl, fun t r _ _ => rfl, rfl, rfl, [], by simp⟩
  · rw [if_neg hempty]
    have hsubP := pendingContactsM_sub acc.1 m'.id
    have hndP0 := pendingContactsM_nodup acc.1 m'.id hndC
    have hmidP : ∀ c ∈ pendingContactsM acc.1 m'.id, ¬ c.message_id = mid := by
      intro c hc hcm
      exact hne ((hsubP c hc).2.1 ▸ hcm)
    rcases innerFoldM_basic sendOk (pendingContactsM acc.1 m'.id) acc.1 acc.2 true with
      ⟨hmsg, htr, _, hpair, hfindo⟩
    have hfilter := innerFoldM_filter sendOk (pendingContactsM acc.1 m'.id) acc.1
      acc.2 true mid hndP0 hndC (fun c hc => (hsubP c hc).1) hmidP
    have hcrow : ∀ t r, findBy MContactRow.id t acc.1.contacts = some r →
        r.message_id = mid →
        findBy MContactRow.id t
            ((pendingContactsM acc.1 m'.id).foldl (processContactM sendOk)
              (acc.1, acc.2, true)).1.contacts =
          findBy MContactRow.id t acc.1.contacts := by
      intro t r hr hrm
      refine hfindo t ?_
      intro c hc hct
      have hrmem := findBy_mem MContactRow.id t acc.1.contacts r hr
      have : c = r := key_inj_of_nodup MContactRow.id acc.1.contacts hndC c r
        ((hsubP c hc).1) hrmem.1 (hct.trans hrmem.2.symm)
      subst this
      exact hmidP c hc hrm
    by_cases hall : ((pendingContactsM acc.1 m'.id).foldl (processContactM sendOk)
        (acc.1, acc.2, true)).2.2 = true
    · rw [if_pos hall]
      refine ⟨?_, ?_, hcrow, hpair, ?_, ?_⟩
      · show findBy MessageRow.id mid (updateBy MessageRow.id _ m'.id _) = _
        rw [findBy_updateBy_ne MessageRow.id (setMStatus (some "sent")) m'.id mid
          (fun x => rfl) (fun hc => hne hc.symm), hmsg]
      · show List.filter _ ((_ : MStore × List FEff × Bool).1.contacts) = _
        exact hfilter
      · show (updateBy MessageRow.id _ m'.id _).map MessageRow.id = _
        rw [map_key_updateBy MessageRow.id (setMStatus (some "sent")) m'.id
          (fun x => rfl), hmsg]
      · exact ⟨_, htr⟩
    · rw [if_neg hall]
      refine ⟨?_, hfilter, hcrow, hpair, ?_, ?_⟩
      · rw [hmsg]
      · rw [hmsg]
      · exact ⟨_, htr⟩

theorem processMessageM_target (sendOk : Nat → Bool) (acc : MStore × List FEff)
    (m : MessageRow)
    (hndC : (acc.1.contacts.map MContactRow.id).Nodup)
    (hrowm : findBy MessageRow.id m.id acc.1.messages = some m) :
    findBy MessageRow.id m.id (processMessageM sendOk acc m).1.messages =
      some (if pendingContactsM acc.1 m.id ≠ [] ∧
          (∀ c ∈ pendingContactsM acc.1 m.id, sendOk c.id = true)
        then setMStatus (some "sent") m else m) ∧
    (∀ c ∈ pendingContactsM acc.1 m.id,
      findBy MContactRow.id c.id (processMessageM sendOk acc m).1.contacts =
        some (setMCStatus (some (if sendOk c.id then "sent" else "")) c)) ∧
    (∀ c ∈ pendingContactsM acc.1 m.id,
      FEff.attempt c.id (sendOk c.id) ∈ (processMessageM sendOk acc m).2) ∧
    (processMessageM sendOk acc m).1.contacts.map mcPair =
      acc.1.contacts.map mcPair ∧
    (processMessageM sendOk acc m).1.messages.map MessageRow.id =
      acc.1.messages.map MessageRow.id := by
  unfold processMessageM
  by_cases hempty : (pendingContactsM acc.1 m.id).isEmpty = true
  · rw [if_pos hempty]
    have hP0 : pendingContactsM acc.1 m.id = [] := by
      cases hl : pendingContactsM acc.1 m.id with
      | nil => rfl
      | cons a l => rw [hl] at hempty; cases hempty
    rw [hP0]
    refine ⟨?_, ?_, ?_, rfl, rfl⟩
    · rw [if_neg (by intro hc; exact hc.1 rfl)]
      exact hrowm
    · intro c hc
      cases hc
    · intro c hc
      cases hc
  · rw [if_neg hempty]
    have hP0ne : pendingContactsM acc.1 m.id ≠ [] := by
      intro hc
      rw [hc] at hempty
      exact hempty rfl
    have hsubP := pendingContactsM_sub acc.1 m.id
    have hndP0 := pendingContactsM_nodup acc.1 m.id hndC
    rcases innerFoldM_basic sendOk (pendingContactsM acc.1 m.id) acc.1 acc.2 true with
      ⟨hmsg, htr, hallv, hpair, _⟩
    have hmem : ∀ c ∈ pendingContactsM acc.1 m.id,
        findBy MContactRow.id c.id
            ((pendingContactsM acc.1 m.id).foldl (processContactM sendOk)
              (acc.1, acc.2, true)).1.contacts =
          some (setMCStatus (some (if sendOk c.id then "sent" else "")) c) := by
      intro c hc
      refine innerFoldM_member sendOk _ acc.1 acc.2 true c hc hndP0 ?_
      have := findBy_of_mem MContactRow.id acc.1.contacts hndC c (hsubP c hc).1
      exact this
    have htrm : ∀ c ∈ pendingContactsM acc.1 m.id,
        FEff.attempt c.id (sendOk c.id) ∈
          ((pendingContactsM acc.1 m.id).foldl (processContactM sendOk)
            (acc.1, acc.2, true)).2.1 := by
      intro c hc
      rw [htr]
      exact List.mem_append.mpr (Or.inr (List.mem_map_of_mem _ hc))
    by_cases hall : ((pendingContactsM acc.1 m.id).foldl (processContactM sendOk)
        (acc.1, acc.2, true)).2.2 = true
    · rw [if_pos hall]
      have hcond : pendingContactsM acc.1 m.id ≠ [] ∧
          (∀ c ∈ pendingContactsM acc.1 m.id, sendOk c.id = true) := by
        refine ⟨hP0ne, ?_⟩
        rw [hallv] at hall
        simp only [Bool.true_and] at hall
        exact fun c hc => List.all_eq_true.mp hall c hc
      refine ⟨?_, hmem, htrm, hpair, ?_⟩
      · show findBy MessageRow.id m.id (updateBy MessageRow.id _ m.id _) = _
        rw [findBy_updateBy_eq MessageRow.id (setMStatus (some "sent")) m.id
          (fun x => rfl), hmsg, hrowm, if_pos hcond]
        rfl
      · show (updateBy MessageRow.id _ m.id _).map MessageRow.id = _
        rw [map_key_updateBy MessageRow.id (setMStatus (some "sent")) m.id
          (fun x => rfl), hmsg]
    · rw [if_neg hall]
      have hcond : ¬(pendingContactsM acc.1 m.id ≠ [] ∧
          (∀ c ∈ pendingContactsM acc.1 m.id, sendOk c.id = true)) := by
        intro hc
        refine hall ?_
        rw [hallv]
        simp only [Bool.true_and]
        exact List.all_eq_true.mpr (fun c hc2 => hc.2 c hc2)
      refine ⟨?_, hmem, htrm, hpair, ?_⟩
      · rw [hmsg, hrowm, if_neg hcond]
      · rw [hmsg]

/-- What one `process_messages` tick does to a pending message `m` and its
pending contact rows. -/
theorem process_messages_target (sendOk : Nat → Bool) (s : MStore)
    (m : MessageRow)
    (hm : m ∈ s.messages) (hpend : pendingN m.status = true)
    (hndM : (s.messages.map MessageRow.id).Nodup)
    (hndC : (s.contacts.map MContactRow.id).Nodup) :
    findBy MessageRow.id m.id (process_messages sendOk s).1.messages =
      some (if pendingContactsM s m.id ≠ [] ∧
          (∀ c ∈ pendingContactsM s m.id, sendOk c.id = true)
        then setMStatus (some "sent") m else m) ∧
    (∀ c ∈ pendingContactsM s m.id,
      findBy MContactRow.id c.id (process_messages sendOk s).1.contacts =
        some (setMCStatus (some (if sendOk c.id then "sent" else "")) c)) ∧
    (∀ c ∈ pendingContactsM s m.id,
      FEff.attempt c.id (sendOk c.id) ∈ (process_messages sendOk s).2) ∧
    (process_messages sendOk s).1.contacts.map mcPair = s.contacts.map mcPair ∧
    (process_messages sendOk s).1.messages.map MessageRow.id =
      s.messages.map MessageRow.id := by
  have hsnap : m ∈ s.messages.filter (fun x => pendingN x.status) :=
    List.mem_filter.mpr ⟨hm, hpend⟩
  have hinj : ∀ x ∈ s.messages, x.id = m.id → x = m :=
    fun x hx hxe => key_inj_of_nodup MessageRow.id s.messages hndM x m hx hm hxe
  rcases List.append_of_mem hsnap with ⟨l1, l2, hsplit⟩
  have hsnd : (s.messages.filter (fun x => pendingN x.status)).Nodup :=
    List.Nodup.filter _ (List.Nodup.of_map MessageRow.id hndM)
  have hem : m ∉ l1 ∧ m ∉ l2 := by
    rw [hsplit] at hsnd
    rcases List.nodup_append.mp hsnd with ⟨_, hnd2, hdisj⟩
    exact ⟨fun hc => hdisj hc (List.mem_cons_self m l2), (List.nodup_cons.mp hnd2).1⟩
  have hm12 : ∀ x, x ∈ l1 ∨ x ∈ l2 → ¬ x.id = m.id := by
    intro x hx hc
    have hxs : x ∈ s.messages.filter (fun y => pendingN y.status) := by
      rw [hsplit]
      rcases hx with h | h
      · exact List.mem_append.mpr (Or.inl h)
      · exact List.mem_append.mpr (Or.inr (List.mem_cons_of_mem m h))
    have := hinj x (List.mem_filter.mp hxs).1 hc
    subst this
    rcases hx with h | h
    · exact hem.1 h
    · exact hem.2 h
  set P : MStore × List FEff → Prop := fun acc =>
    findBy MessageRow.id m.id acc.1.messages = some m ∧
    pendingContactsM acc.1 m.id = pendingContactsM s m.id ∧
    acc.1.contacts.map mcPair = s.contacts.map mcPair ∧
    acc.1.messages.map MessageRow.id = s.messages.map MessageRow.id with hPdef
  have hrow0 : findBy MessageRow.id m.id s.messages = some m :=
    findBy_of_mem MessageRow.id s.messages hndM m hm
  have hP1 : P (l1.foldl (processMessageM sendOk) (s, [])) := by
    refine foldl_invariant (processMessageM sendOk) P l1 (s, [])
      ⟨hrow0, rfl, rfl, rfl⟩ ?_
    intro acc x hx hacc
    have hndCx : (acc.1.contacts.map MContactRow.id).Nodup := by
      rw [contacts_id_map_eq_of_pair s.contacts acc.1.contacts hacc.2.2.1]
      exact hndC
    rcases processMessageM_foreign sendOk acc x m.id (hm12 x (Or.inl hx)) hndCx with
      ⟨h1, h2, _, h4, h5, _⟩
    exact ⟨h1.trans hacc.1, h2.trans hacc.2.1, h4.trans hacc.2.2.1,
      h5.trans hacc.2.2.2⟩
  have hndC1 : ((l1.foldl (processMessageM sendOk) (s, [])).1.contacts.map
      MContactRow.id).Nodup := by
    rw [contacts_id_map_eq_of_pair s.contacts _ hP1.2.2.1]
    exact hndC
  have hmidstep := processMessageM_target sendOk
    (l1.foldl (processMessageM sendOk) (s, [])) m hndC1 hP1.1
  rw [hP1.2.1] at hmidstep
  -- Facts after processing `m`, carried through `l2`.
  set Q : MStore × List FEff → Prop := fun acc =>
    findBy MessageRow.id m.id acc.1.messages =
      some (if pendingContactsM s m.id ≠ [] ∧
          (∀ c ∈ pendingContactsM s m.id, sendOk c.id = true)
        then setMStatus (some "sent") m else m) ∧
    (∀ c ∈ pendingContactsM s m.id,
      findBy MContactRow.id c.id acc.1.contacts =
        some (setMCStatus (some (if sendOk c.id then "sent" else "")) c)) ∧
    (∀ c ∈ pendingContactsM s m.id,
      FEff.attempt c.id (sendOk c.id) ∈ acc.2) ∧
    acc.1.contacts.map mcPair = s.contacts.map mcPair ∧
    acc.1.messages.map MessageRow.id = s.messages.map MessageRow.id with hQdef
  have hQm : Q (processMessageM sendOk (l1.foldl (processMessageM sendOk) (s, [])) m) := by
    refine ⟨hmidstep.1, hmidstep.2.1, hmidstep.2.2.1, ?_, ?_⟩
    · exact hmidstep.2.2.2.1.trans hP1.2.2.1
    · exact hmidstep.2.2.2.2.trans hP1.2.2.2
  have hQfin : Q ((l1 ++ m :: l2).foldl (processMessageM sendOk) (s, [])) := by
    rw [List.foldl_append, List.foldl_cons]
    refine foldl_invariant (processMessageM sendOk) Q l2 _ hQm ?_
    intro acc x hx hacc
    have hndCx : (acc.1.contacts.map MContactRow.id).Nodup := by
      rw [contacts_id_map_eq_of_pair s.contacts acc.1.contacts hacc.2.2.2.1]
      exact hndC
    rcases processMessageM_foreign sendOk acc x m.id (hm12 x (Or.inr hx)) hndCx with
      ⟨h1, _, h3, h4, h5, h6⟩
    refine ⟨h1.trans hacc.1, ?_, ?_, h4.trans hacc.2.2.2.1, h5.trans hacc.2.2.2.2⟩
    · intro c hc
      have hcsub := pendingContactsM_sub s m.id c hc
      refine (h3 c.id (setMCStatus (some (if sendOk c.id then "sent" else "")) c)
        (hacc.2.1 c hc) hcsub.2.1).trans (hacc.2.1 c hc)
    · intro c hc
      rcases h6 with ⟨suf, hsuf⟩
      rw [hsuf]
      exact List.mem_append.mpr (Or.inl (hacc.2.2.1 c hc))
  have htick : process_messages sendOk s =
      (l1 ++ m :: l2).foldl (processMessageM sendOk) (s, []) := by
    unfold process_messages
    rw [hsplit]
  rw [htick]
  exact ⟨hQfin.1, hQfin.2.1, hQfin.2.2.1, hQfin.2.2.2.1, hQfin.2.2.2.2⟩

/-! ## Fan-out lemmas (RSVP invites), mirroring the broadcast-message lemmas -/

/-- One contact step collapsed to a single row rewrite: the `'processing'`
write followed by `'sent'`/`''` equals one write of the final value; the
trace gains the attempt and `all_sent` keeps its value exactly when the send
succeeded. -/
theorem processContactR_eq (sendOk : Nat → Bool) (acc : RStore × List FEff × Bool)
    (c : RContactRow) :
    processContactR sendOk acc c =
      ({ acc.1 with
          rcontacts := updateBy RContactRow.id
            (setRCInvite (some (if sendOk c.id then "sent" else ""))) c.id
            acc.1.rcontacts },
        acc.2.1 ++ [FEff.attempt c.id (sendOk c.id)],
        acc.2.2 && sendOk c.id) := by
  unfold processContactR
  dsimp only
  by_cases h : sendOk c.id = true
  · rw [if_pos h, h]
    rw [updateBy_updateBy RContactRow.id (setRCInvite (some "processing"))
      (setRCInvite (some "sent")) c.id acc.1.rcontacts (fun x => rfl)]
    rw [updateBy_congr RContactRow.id
      (fun x => setRCInvite (some "sent") (setRCInvite (some "processing") x))
      (setRCInvite (some "sent")) c.id acc.1.rcontacts (fun x => rfl)]
    simp
  · rw [if_neg h, Bool.eq_false_iff.mpr h]
    rw [updateBy_updateBy RContactRow.id (setRCInvite (some "processing"))
      (setRCInvite (some "")) c.id acc.1.rcontacts (fun x => rfl)]
    rw [updateBy_congr RContactRow.id
      (fun x => setRCInvite (some "") (setRCInvite (some "processing") x))
      (setRCInvite (some "")) c.id acc.1.rcontacts (fun x => rfl)]
    simp

/-- The contact-id/rsvp-id pair column, preserved by every invite-status write. -/
def rcPair (c : RContactRow) : Nat × Nat := (c.id, c.rsvp_id)

theorem innerFoldR_basic (sendOk : Nat → Bool) (P0 : List RContactRow)
    (st : RStore) (tr : List FEff) (all : Bool) :
    (P0.foldl (processContactR sendOk) (st, tr, all)).1.rsvps = st.rsvps ∧
    (P0.foldl (processContactR sendOk) (st, tr, all)).2.1 =
      tr ++ P0.map (fun c => FEff.attempt c.id (sendOk c.id)) ∧
    (P0.foldl (processContactR sendOk) (st, tr, all)).2.2 =
      (all && P0.all (fun c => sendOk c.id)) ∧
    (P0.foldl (processContactR sendOk) (st, tr, all)).1.rcontacts.map rcPair =
      st.rcontacts.map rcPair ∧
    (∀ t, (∀ c ∈ P0, ¬ c.id = t) →
      findBy RContactRow.id t
          (P0.foldl (processContactR sendOk) (st, tr, all)).1.rcontacts =
        findBy RContactRow.id t st.rcontacts) := by
  induction P0 generalizing st tr all with
  | nil => exact ⟨rfl, by simp, by simp, rfl, fun t _ => rfl⟩
  | cons c P0 ih =>
      rw [List.foldl_cons, processContactR_eq]
      rcases ih { st with
          rcontacts := updateBy RContactRow.id
            (setRCInvite (some (if sendOk c.id then "sent" else ""))) c.id
            st.rcontacts }
        (tr ++ [FEff.attempt c.id (sendOk c.id)]) (all && sendOk c.id) with
        ⟨h1, h2, h3, h4, h5⟩
      refine ⟨h1, ?_, ?_, ?_, ?_⟩
      · rw [h2]
        simp
      · rw [h3]
        simp [Bool.and_assoc]
      · rw [h4]
        exact map_fn_updateBy RContactRow.id rcPair
          (setRCInvite (some (if sendOk c.id = true then "sent" else ""))) c.id
          st.rcontacts (fun x => rfl)
      · intro t ht
        rw [h5 t (fun c' hc' => ht c' (List.mem_cons_of_mem c hc'))]
        exact findBy_updateBy_ne RContactRow.id
          (setRCInvite (some (if sendOk c.id = true then "sent" else ""))) c.id t
          (fun x => rfl) (fun hc => ht c (List.mem_cons_self c P0) hc.symm)
          st.rcontacts

theorem pendingFilterR_updateBy (v : Option String) (i mid : Nat)
    (l : List RContactRow)
    (h : ∀ x ∈ l, x.id = i → ¬ x.rsvp_id = mid) :
    (updateBy RContactRow.id (setRCInvite v) i l).filter
        (fun c => decide (c.rsvp_id = mid) && pendingN c.invite_status) =
      l.filter (fun c => decide (c.rsvp_id = mid) && pendingN c.invite_status) := by
  induction l with
  | nil => rfl
  | cons a l ih =>
      simp only [updateBy, List.map_cons, List.filter_cons] at *
      by_cases ha : a.id = i
      · have hm : ¬ a.rsvp_id = mid := h a (List.mem_cons_self a l) ha
        rw [if_pos ha]
        have h1 : (decide ((setRCInvite v a).rsvp_id = mid) && pendingN
            (setRCInvite v a).invite_status) = false := by
          simp [setRCInvite, hm]
        have h2 : (decide (a.rsvp_id = mid) && pendingN a.invite_status) = false := by
          simp [hm]
        rw [h1, h2]
        exact ih (fun x hx hxi => h x (List.mem_cons_of_mem a hx) hxi)
      · rw [if_neg ha]
        by_cases hcond : (decide (a.rsvp_id = mid) && pendingN a.invite_status) = true
        · rw [hcond]
          rw [ih (fun x hx hxi => h x (List.mem_cons_of_mem a hx) hxi)]
        · rw [Bool.eq_false_iff.mpr hcond]
          exact ih (fun x hx hxi => h x (List.mem_cons_of_mem a hx) hxi)

theorem innerFoldR_filter (sendOk : Nat → Bool) (P0 : List RContactRow)
    (st : RStore) (tr : List FEff) (all : Bool) (mid : Nat)
    (hndP0 : (P0.map RContactRow.id).Nodup)
    (hndC : (st.rcontacts.map RContactRow.id).Nodup)
    (hsub : ∀ c ∈ P0, c ∈ st.rcontacts)
    (hmid : ∀ c ∈ P0, ¬ c.rsvp_id = mid) :
    (P0.foldl (processContactR sendOk) (st, tr, all)).1.rcontacts.filter
        (fun c => decide (c.rsvp_id = mid) && pendingN c.invite_status) =
      st.rcontacts.filter (fun c => decide (c.rsvp_id = mid) && pendingN c.invite_status) := by
  induction P0 generalizing st tr all with
  | nil => rfl
  | cons c P0 ih =>
      rw [List.foldl_cons, processContactR_eq]
      have hstep : (updateBy RContactRow.id
          (setRCInvite (some (if sendOk c.id then "sent" else ""))) c.id
          st.rcontacts).filter
            (fun x => decide (x.rsvp_id = mid) && pendingN x.invite_status) =
          st.rcontacts.filter (fun x => decide (x.rsvp_id = mid) && pendingN x.invite_status) := by
        refine pendingFilterR_updateBy _ c.id mid st.rcontacts ?_
        intro x hx hxi
        have : x = c := key_inj_of_nodup RContactRow.id st.rcontacts hndC x c hx
          (hsub c (List.mem_cons_self c P0)) hxi
        subst this
        exact hmid x (List.mem_cons_self x P0)
      simp only [List.map_cons, List.nodup_cons] at hndP0
      have hndC2 : ((updateBy RContactRow.id
          (setRCInvite (some (if sendOk c.id then "sent" else ""))) c.id
          st.rcontacts).map RContactRow.id).Nodup := by
        rw [map_key_updateBy RContactRow.id
          (setRCInvite (some (if sendOk c.id = true then "sent" else ""))) c.id
          (fun x => rfl)]
        exact hndC
      have hsub2 : ∀ c' ∈ P0, c' ∈ updateBy RContactRow.id
          (setRCInvite (some (if sendOk c.id then "sent" else ""))) c.id
          st.rcontacts := by
        intro c' hc'
        refine mem_updateBy_of_ne_key RContactRow.id _ c.id st.rcontacts c'
          (hsub c' (List.mem_cons_of_mem c hc')) ?_
        intro hcid
        exact hndP0.1 (hcid ▸ List.mem_map_of_mem RContactRow.id hc')
      have := ih { st with
          rcontacts := updateBy RContactRow.id
            (setRCInvite (some (if sendOk c.id then "sent" else ""))) c.id
            st.rcontacts }
        (tr ++ [FEff.attempt c.id (sendOk c.id)]) (all && sendOk c.id)
        hndP0.2 hndC2 hsub2 (fun x hx => hmid x (List.mem_cons_of_mem c hx))
      rw [this]
      exact hstep

theorem innerFoldR_member (sendOk : Nat → Bool) (P0 : List RContactRow)
    (st : RStore) (tr : List FEff) (all : Bool) (c : RContactRow)
    (hc : c ∈ P0) (hndP0 : (P0.map RContactRow.id).Nodup)
    (hrow : findBy RContactRow.id c.id st.rcontacts = some c) :
    findBy RContactRow.id c.id
        (P0.foldl (processContactR sendOk) (st, tr, all)).1.rcontacts =
      some (setRCInvite (some (if sendOk c.id then "sent" else "")) c) := by
  rcases List.append_of_mem hc with ⟨a, b, hsplit⟩
  subst hsplit
  have hmap : (a.map RContactRow.id) ++ c.id :: (b.map RContactRow.id) =
      ((a ++ c :: b).map RContactRow.id) := by
    simp
  rw [← hmap] at hndP0
  rcases List.nodup_append.mp hndP0 with ⟨_, hnd2, hdisj⟩
  have ha : ∀ x ∈ a, ¬ x.id = c.id := by
    intro x hx hxc
    exact hdisj (hxc ▸ List.mem_map_of_mem RContactRow.id hx)
      (List.mem_cons_self c.id _)
  have hb : ∀ x ∈ b, ¬ x.id = c.id := by
    intro x hx hxc
    exact (List.nodup_cons.mp hnd2).1 (hxc ▸ List.mem_map_of_mem RContactRow.id hx)
  rw [List.foldl_append, List.foldl_cons]
  have hmid1 := (innerFoldR_basic sendOk a st tr all).2.2.2.2 c.id ha
  have hrow2 : findBy RContactRow.id c.id
      (a.foldl (processContactR sendOk) (st, tr, all)).1.rcontacts = some c :=
    hmid1.trans hrow
  have hAfter : findBy RContactRow.id c.id
      (processContactR sendOk (a.foldl (processContactR sendOk) (st, tr, all))
        c).1.rcontacts =
      some (setRCInvite (some (if sendOk c.id then "sent" else "")) c) := by
    rw [processContactR_eq]
    show findBy RContactRow.id c.id (updateBy RContactRow.id _ c.id
      (a.foldl (processContactR sendOk) (st, tr, all)).1.rcontacts) = _
    rw [findBy_updateBy_eq RContactRow.id
      (setRCInvite (some (if sendOk c.id = true then "sent" else ""))) c.id
      (fun x => rfl)]
    show (findBy RContactRow.id c.id
      (a.foldl (processContactR sendOk) (st, tr, all)).1.rcontacts).map _ = _
    rw [hrow2]
    rfl
  have hkeep := (innerFoldR_basic sendOk b
    (processContactR sendOk (a.foldl (processContactR sendOk) (st, tr, all)) c).1
    (processContactR sendOk (a.foldl (processContactR sendOk) (st, tr, all)) c).2.1
    (processContactR sendOk (a.foldl (processContactR sendOk) (st, tr, all))
      c).2.2).2.2.2.2 c.id hb
  exact hkeep.trans hAfter

theorem rcontacts_id_map_eq_of_pair (l l' : List RContactRow)
    (h : l'.map rcPair = l.map rcPair) :
    l'.map RContactRow.id = l.map RContactRow.id := by
  have h1 : l'.map RContactRow.id = (l'.map rcPair).map Prod.fst := by
    rw [List.map_map]
    rfl
  have h2 : l.map RContactRow.id = (l.map rcPair).map Prod.fst := by
    rw [List.map_map]
    rfl
  rw [h1, h2, h]

theorem pendingContactsR_sub (s : RStore) (mid : Nat) :
    ∀ c ∈ pendingContactsR s mid, c ∈ s.rcontacts ∧ c.rsvp_id = mid ∧
      pendingN c.invite_status = true := by
  intro c hc
  rcases List.mem_filter.mp hc with ⟨h1, h2⟩
  rcases (Bool.and_eq_true _ _).mp h2 with ⟨h3, h4⟩
  exact ⟨h1, of_decide_eq_true h3, h4⟩

theorem pendingContactsR_nodup (s : RStore) (mid : Nat)
    (hndC : (s.rcontacts.map RContactRow.id).Nodup) :
    ((pendingContactsR s mid).map RContactRow.id).Nodup :=
  List.Nodup.sublist (List.Sublist.map RContactRow.id (List.filter_sublist _)) hndC

/-- Processing a pending RSVP other than `mid` leaves everything the
claims observe about RSVP `mid` untouched. -/
theorem processRsvpR_foreign (sendOk : Nat → Bool) (acc : RStore × List FEff)
    (m' : RsvpRow) (mid : Nat) (hne : ¬ m'.id = mid)
    (hndC : (acc.1.rcontacts.map RContactRow.id).Nodup) :
    findBy RsvpRow.id mid (processRsvpR sendOk acc m').1.rsvps =
      findBy RsvpRow.id mid acc.1.rsvps ∧
    pendingContactsR (processRsvpR sendOk acc m').1 mid =
      pendingContactsR acc.1 mid ∧
    (∀ t r, findBy RContactRow.id t acc.1.rcontacts = some r → r.rsvp_id = mid →
      findBy RContactRow.id t (processRsvpR sendOk acc m').1.rcontacts =
        findBy RContactRow.id t acc.1.rcontacts) ∧
    (processRsvpR sendOk acc m').1.rcontacts.map rcPair =
      acc.1.rcontacts.map rcPair ∧
    (processRsvpR sendOk acc m').1.rsvps.map RsvpRow.id =
      acc.1.rsvps.map RsvpRow.id ∧
    (∃ suf, (processRsvpR sendOk acc m').2 = acc.2 ++ suf) := by
  unfold processRsvpR
  by_cases hempty : (pendingContactsR acc.1 m'.id).isEmpty = true
  · rw [if_pos hempty]
    exact ⟨rfl, rfl, fun t r _ _ => rfl, rfl, rfl, [], by simp⟩
  · rw [if_neg hempty]
    have hsubP := pendingContactsR_sub acc.1 m'.id
    have hndP0 := pendingContactsR_nodup acc.1 m'.id hndC
    have hmidP : ∀ c ∈ pendingContactsR acc.1 m'.id, ¬ c.rsvp_id = mid := by
      intro c hc hcm
      exact hne ((hsubP c hc).2.1 ▸ hcm)
    rcases innerFoldR_basic sendOk (pendingContactsR acc.1 m'.id) acc.1 acc.2 true with
      ⟨hmsg, htr, _, hpair, hfindo⟩
    have hfilter := innerFoldR_filter sendOk (pendingContactsR acc.1 m'.id) acc.1
      acc.2 true mid hndP0 hndC (fun c hc => (hsubP c hc).1) hmidP
    have hcrow : ∀ t r, findBy RContactRow.id t acc.1.rcontacts = some r →
        r.rsvp_id = mid →
        findBy RContactRow.id t
            ((pendingContactsR acc.1 m'.id).foldl (processContactR sendOk)
              (acc.1, acc.2, true)).1.rcontacts =
          findBy RContactRow.id t acc.1.rcontacts := by
      intro t r hr hrm
      refine hfindo t ?_
      intro c hc hct
      have hrmem := findBy_mem RContactRow.id t acc.1.rcontacts r hr
      have : c = r := key_inj_of_nodup RContactRow.id acc.1.rcontacts hndC c r
        ((hsubP c hc).1) hrmem.1 (hct.trans hrmem.2.symm)
      subst this
      exact hmidP c hc hrm
    by_cases hall : ((pendingContactsR acc.1 m'.id).foldl (processContactR sendOk)
        (acc.1, acc.2, true)).2.2 = true
    · rw [if_pos hall]
      refine ⟨?_, ?_, hcrow, hpair, ?_, ?_⟩
      · show findBy RsvpRow.id mid (updateBy RsvpRow.id _ m'.id _) = _
        rw [findBy_updateBy_ne RsvpRow.id (setRStatus (some "sent")) m'.id mid
          (fun x => rfl) (fun hc => hne hc.symm), hmsg]
      · show List.filter _ ((_ : RStore × List FEff × Bool).1.rcontacts) = _
        exact hfilter
      · show (updateBy RsvpRow.id _ m'.id _).map RsvpRow.id = _
        rw [map_key_updateBy RsvpRow.id (setRStatus (some "sent")) m'.id
          (fun x => rfl), hmsg]
      · exact ⟨_, htr⟩
    · rw [if_neg hall]
      refine ⟨?_, hfilter, hcrow, hpair, ?_, ?_⟩
      · rw [hmsg]
      · rw [hmsg]
      · exact ⟨_, htr⟩

theorem processRsvpR_target (sendOk : Nat → Bool) (acc : RStore × List FEff)
    (m : RsvpRow)
    (hndC : (acc.1.rcontacts.map RContactRow.id).Nodup)
    (hrowm : findBy RsvpRow.id m.id acc.1.rsvps = some m) :
    findBy RsvpRow.id m.id (processRsvpR sendOk acc m).1.rsvps =
      some (if pendingContactsR acc.1 m.id ≠ [] ∧
          (∀ c ∈ pendingContactsR acc.1 m.id, sendOk c.id = true)
        then setRStatus (some "sent") m else m) ∧
    (∀ c ∈ pendingContactsR acc.1 m.id,
      findBy RContactRow.id c.id (processRsvpR sendOk acc m).1.rcontacts =
        some (setRCInvite (some (if sendOk c.id then "sent" else "")) c)) ∧
    (∀ c ∈ pendingContactsR acc.1 m.id,
      FEff.attempt c.id (sendOk c.id) ∈ (processRsvpR sendOk acc m).2) ∧
    (processRsvpR sendOk acc m).1.rcontacts.map rcPair =
      acc.1.rcontacts.map rcPair ∧
    (processRsvpR sendOk acc m).1.rsvps.map RsvpRow.id =
      acc.1.rsvps.map RsvpRow.id := by
  unfold processRsvpR
  by_cases hempty : (pendingContactsR acc.1 m.id).isEmpty = true
  · rw [if_pos hempty]
    have hP0 : pendingContactsR acc.1 m.id = [] := by
      cases hl : pendingContactsR acc.1 m.id with
      | nil => rfl
      | cons a l => rw [hl] at hempty; cases hempty
    rw [hP0]
    refine ⟨?_, ?_, ?_, rfl, rfl⟩
    · rw [if_neg (by intro hc; exact hc.1 rfl)]
      exact hrowm
    · intro c hc
      cases hc
    · intro c hc
      cases hc
  · rw [if_neg hempty]
    have hP0ne : pendingContactsR acc.1 m.id ≠ [] := by
      intro hc
      rw [hc] at hempty
      exact hempty rfl
    have hsubP := pendingContactsR_sub acc.1 m.id
    have hndP0 := pendingContactsR_nodup acc.1 m.id hndC
    rcases innerFoldR_basic sendOk (pendingContactsR acc.1 m.id) acc.1 acc.2 true with
      ⟨hmsg, htr, hallv, hpair, _⟩
    have hmem : ∀ c ∈ pendingContactsR acc.1 m.id,
        findBy RContactRow.id c.id
            ((pendingContactsR acc.1 m.id).foldl (processContactR sendOk)
              (acc.1, acc.2, true)).1.rcontacts =
          some (setRCInvite (some (if sendOk c.id then "sent" else "")) c) := by
      intro c hc
      refine innerFoldR_member sendOk _ acc.1 acc.2 true c hc hndP0 ?_
      have := findBy_of_mem RContactRow.id acc.1.rcontacts hndC c (hsubP c hc).1
      exact this
    have htrm : ∀ c ∈ pendingContactsR acc.1 m.id,
        FEff.attempt c.id (sendOk c.id) ∈
          ((pendingContactsR acc.1 m.id).foldl (processContactR sendOk)
            (acc.1, acc.2, true)).2.1 := by
      intro c hc
      rw [htr]
      exact List.mem_append.mpr (Or.inr (List.mem_map_of_mem _ hc))
    by_cases hall : ((pendingContactsR acc.1 m.id).foldl (processContactR sendOk)
        (acc.1, acc.2, true)).2.2 = true
    · rw [if_pos hall]
      have hcond : pendingContactsR acc.1 m.id ≠ [] ∧
          (∀ c ∈ pendingContactsR acc.1 m.id, sendOk c.id = true) := by
        refine ⟨hP0ne, ?_⟩
        rw [hallv] at hall
        simp only [Bool.true_and] at hall
        exact fun c hc => List.all_eq_true.mp hall c hc
      refine ⟨?_, hmem, htrm, hpair, ?_⟩
      · show findBy RsvpRow.id m.id (updateBy RsvpRow.id _ m.id _) = _
        rw [findBy_updateBy_eq RsvpRow.id (setRStatus (some "sent")) m.id
          (fun x => rfl), hmsg, hrowm, if_pos hcond]
        rfl
      · show (updateBy RsvpRow.id _ m.id _).map RsvpRow.id = _
        rw [map_key_updateBy RsvpRow.id (setRStatus (some "sent")) m.id
          (fun x => rfl), hmsg]
    · rw [if_neg hall]
      have hcond : ¬(pendingContactsR acc.1 m.id ≠ [] ∧
          (∀ c ∈ pendingContactsR acc.1 m.id, sendOk c.id = true)) := by
        intro hc
        refine hall ?_
        rw [hallv]
        simp only [Bool.true_and]
        exact List.all_eq_true.mpr (fun c hc2 => hc.2 c hc2)
      refine ⟨?_, hmem, htrm, hpair, ?_⟩
      · rw [hmsg, hrowm, if_neg hcond]
      · rw [hmsg]

/-- What one `process_rsvp_messages` tick does to a pending RSVP `m` and its
pending contact rows. -/
theorem process_rsvp_messages_target (sendOk : Nat → Bool) (s : RStore)
    (m : RsvpRow)
    (hm : m ∈ s.rsvps) (hpend : pendingN m.status = true)
    (hndM : (s.rsvps.map RsvpRow.id).Nodup)
    (hndC : (s.rcontacts.map RContactRow.id).Nodup) :
    findBy RsvpRow.id m.id (process_rsvp_messages sendOk s).1.rsvps =
      some (if pendingContactsR s m.id ≠ [] ∧
          (∀ c ∈ pendingContactsR s m.id, sendOk c.id = true)
        then setRStatus (some "sent") m else m) ∧
    (∀ c ∈ pendingContactsR s m.id,
      findBy RContactRow.id c.id (process_rsvp_messages sendOk s).1.rcontacts =
        some (setRCInvite (some (if sendOk c.id then "sent" else "")) c)) ∧
    (∀ c ∈ pendingContactsR s m.id,
      FEff.attempt c.id (sendOk c.id) ∈ (process_rsvp_messages sendOk s).2) ∧
    (process_rsvp_messages sendOk s).1.rcontacts.map rcPair = s.rcontacts.map rcPair ∧
    (process_rsvp_messages sendOk s).1.rsvps.map RsvpRow.id =
      s.rsvps.map RsvpRow.id := by
  have hsnap : m ∈ s.rsvps.filter (fun x => pendingN x.status) :=
    List.mem_filter.mpr ⟨hm, hpend⟩
  have hinj : ∀ x ∈ s.rsvps, x.id = m.id → x = m :=
    fun x hx hxe => key_inj_of_nodup RsvpRow.id s.rsvps hndM x m hx hm hxe
  rcases List.append_of_mem hsnap with ⟨l1, l2, hsplit⟩
  have hsnd : (s.rsvps.filter (fun x => pendingN x.status)).Nodup :=
    List.Nodup.filter _ (List.Nodup.of_map RsvpRow.id hndM)
  have hem : m ∉ l1 ∧ m ∉ l2 := by
    rw [hsplit] at hsnd
    rcases List.nodup_append.mp hsnd with ⟨_, hnd2, hdisj⟩
    exact ⟨fun hc => hdisj hc (List.mem_cons_self m l2), (List.nodup_cons.mp hnd2).1⟩
  have hm12 : ∀ x, x ∈ l1 ∨ x ∈ l2 → ¬ x.id = m.id := by
    intro x hx hc
    have hxs : x ∈ s.rsvps.filter (fun y => pendingN y.status) := by
      rw [hsplit]
      rcases hx with h | h
      · exact List.mem_append.mpr (Or.inl h)
      · exact List.mem_append.mpr (Or.inr (List.mem_cons_of_mem m h))
    have := hinj x (List.mem_filter.mp hxs).1 hc
    subst this
    rcases hx with h | h
    · exact hem.1 h
    · exact hem.2 h
  set P : RStore × List FEff → Prop := fun acc =>
    findBy RsvpRow.id m.id acc.1.rsvps = some m ∧
    pendingContactsR acc.1 m.id = pendingContactsR s m.id ∧
    acc.1.rcontacts.map rcPair = s.rcontacts.map rcPair ∧
    acc.1.rsvps.map RsvpRow.id = s.rsvps.map RsvpRow.id with hPdef
  have hrow0 : findBy RsvpRow.id m.id s.rsvps = some m :=
    findBy_of_mem RsvpRow.id s.rsvps hndM m hm
  have hP1 : P (l1.foldl (processRsvpR sendOk) (s, [])) := by
    refine foldl_invariant (processRsvpR sendOk) P l1 (s, [])
      ⟨hrow0, rfl, rfl, rfl⟩ ?_
    intro acc x hx hacc
    have hndCx : (acc.1.rcontacts.map RContactRow.id).Nodup := by
      rw [rcontacts_id_map_eq_of_pair s.rcontacts acc.1.rcontacts hacc.2.2.1]
      exact hndC
    rcases processRsvpR_foreign sendOk acc x m.id (hm12 x (Or.inl hx)) hndCx with
      ⟨h1, h2, _, h4, h5, _⟩
    exact ⟨h1.trans hacc.1, h2.trans hacc.2.1, h4.trans hacc.2.2.1,
      h5.trans hacc.2.2.2⟩
  have hndC1 : ((l1.foldl (processRsvpR sendOk) (s, [])).1.rcontacts.map
      RContactRow.id).Nodup := by
    rw [rcontacts_id_map_eq_of_pair s.rcontacts _ hP1.2.2.1]
    exact hndC
  have hmidstep := processRsvpR_target sendOk
    (l1.foldl (processRsvpR sendOk) (s, [])) m hndC1 hP1.1
  rw [hP1.2.1] at hmidstep
  -- Facts after processing `m`, carried through `l2`.
  set Q : RStore × List FEff → Prop := fun acc =>
    findBy RsvpRow.id m.id acc.1.rsvps =
      some (if pendingContactsR s m.id ≠ [] ∧
          (∀ c ∈ pendingContactsR s m.id, sendOk c.id = true)
        then setRStatus (some "sent") m else m) ∧
    (∀ c ∈ pendingContactsR s m.id,
      findBy RContactRow.id c.id acc.1.rcontacts =
        some (setRCInvite (some (if sendOk c.id then "sent" else "")) c)) ∧
    (∀ c ∈ pendingContactsR s m.id,
      FEff.attempt c.id (sendOk c.id) ∈ acc.2) ∧
    acc.1.rcontacts.map rcPair = s.rcontacts.map rcPair ∧
    acc.1.rsvps.map RsvpRow.id = s.rsvps.map RsvpRow.id with hQdef
  have hQm : Q (processRsvpR sendOk (l1.foldl (processRsvpR sendOk) (s, [])) m) := by
    refine ⟨hmidstep.1, hmidstep.2.1, hmidstep.2.2.1, ?_, ?_⟩
    · exact hmidstep.2.2.2.1.trans hP1.2.2.1
    · exact hmidstep.2.2.2.2.trans hP1.2.2.2
  have hQfin : Q ((l1 ++ m :: l2).foldl (processRsvpR sendOk) (s, [])) := by
    rw [List.foldl_append, List.foldl_cons]
    refine foldl_invariant (processRsvpR sendOk) Q l2 _ hQm ?_
    intro acc x hx hacc
    have hndCx : (acc.1.rcontacts.map RContactRow.id).Nodup := by
      rw [rcontacts_id_map_eq_of_pair s.rcontacts acc.1.rcontacts hacc.2.2.2.1]
      exact hndC
    rcases processRsvpR_foreign sendOk acc x m.id (hm12 x (Or.inr hx)) hndCx with
      ⟨h1, _, h3, h4, h5, h6⟩
    refine ⟨h1.trans hacc.1, ?_, ?_, h4.trans hacc.2.2.2.1, h5.trans hacc.2.2.2.2⟩
    · intro c hc
      have hcsub := pendingContactsR_sub s m.id c hc
      refine (h3 c.id (setRCInvite (some (if sendOk c.id then "sent" else "")) c)
        (hacc.2.1 c hc) hcsub.2.1).trans (hacc.2.1 c hc)
    · intro c hc
      rcases h6 with ⟨suf, hsuf⟩
      rw [hsuf]
      exact List.mem_append.mpr (Or.inl (hacc.2.2.1 c hc))
  have htick : process_rsvp_messages sendOk s =
      (l1 ++ m :: l2).foldl (processRsvpR sendOk) (s, []) := by
    unfold process_rsvp_messages
    rw [hsplit]
  rw [htick]
  exact ⟨hQfin.1, hQfin.2.1, hQfin.2.2.1, hQfin.2.2.2.1, hQfin.2.2.2.2⟩

/-! ## Claim C3 -/

/-- A pending broadcast whose contact 1 is stuck at `'processing'` (e.g. a
runner died between the `'processing'` write and the send) and whose
contact 2 is pending. -/
def C3store : MStore :=
  ⟨[⟨1, some "hello", none⟩],
    [⟨1, 1, "+1", some "processing"⟩, ⟨2, 1, "+2", none⟩]⟩

/-- C3 counterexample: the tick sets the aggregate's status to `"sent"` even
though a re-read of all of its contact rows would show contact 1 still at
`"processing"` ≠ `"sent"` — there is no re-read; the roll-up only consults
the `all_sent` flag over the contacts fetched as pending in this tick. -/
theorem C3_aggregate_sent_counterexample :
    msgStatus (process_messages (fun _ => true) C3store).1 1 = some (some "sent") ∧
    (findBy MContactRow.id 1
        (process_messages (fun _ => true) C3store).1.contacts).map
      MContactRow.status = some (some "processing") ∧
    some "processing" ≠ some "sent" := by
  exact ⟨by decide, by decide, by decide⟩

/-- C3 amended: a fan-out tick sets an aggregate's status to `"sent"` iff the
tick fetched a nonempty list of pending contact rows for it and every send
attempted in the tick succeeded.  No re-read of the aggregate's contact rows
happens: rows already `'sent'` or stuck in `'processing'` are not
re-checked, and an aggregate whose pending-contact fetch is empty stays
pending.  Proved for both instantiations (broadcast messages and RSVP
invites). -/
theorem C3_aggregate_sent_iff_amended :
    (∀ (sendOk : Nat → Bool) (s : MStore) (m : MessageRow),
      m ∈ s.messages → pendingN m.status = true →
      (s.messages.map MessageRow.id).Nodup →
      (s.contacts.map MContactRow.id).Nodup →
      (msgStatus (process_messages sendOk s).1 m.id = some (some "sent") ↔
        (pendingContactsM s m.id ≠ [] ∧
          ∀ c ∈ pendingContactsM s m.id, sendOk c.id = true))) ∧
    (∀ (sendOk : Nat → Bool) (s : RStore) (r : RsvpRow),
      r ∈ s.rsvps → pendingN r.status = true →
      (s.rsvps.map RsvpRow.id).Nodup →
      (s.rcontacts.map RContactRow.id).Nodup →
      (rsvpStatus (process_rsvp_messages sendOk s).1 r.id = some (some "sent") ↔
        (pendingContactsR s r.id ≠ [] ∧
          ∀ c ∈ pendingContactsR s r.id, sendOk c.id = true))) := by
  constructor
  · intro sendOk s m hm hpend hndM hndC
    have htgt := (process_messages_target sendOk s m hm hpend hndM hndC).1
    unfold msgStatus
    rw [htgt]
    by_cases hcond : (pendingContactsM s m.id ≠ [] ∧
        ∀ c ∈ pendingContactsM s m.id, sendOk c.id = true)
    · rw [if_pos hcond]
      exact iff_of_true rfl hcond
    · rw [if_neg hcond]
      refine iff_of_false ?_ hcond
      intro hc
      have hms : m.status = some "sent" := by
        simpa using hc
      rw [hms] at hpend
      exact absurd hpend (by decide)
  · intro sendOk s r hr hpend hndR hndC
    have htgt := (process_rsvp_messages_target sendOk s r hr hpend hndR hndC).1
    unfold rsvpStatus
    rw [htgt]
    by_cases hcond : (pendingContactsR s r.id ≠ [] ∧
        ∀ c ∈ pendingContactsR s r.id, sendOk c.id = true)
    · rw [if_pos hcond]
      exact iff_of_true rfl hcond
    · rw [if_neg hcond]
      refine iff_of_false ?_ hcond
      intro hc
      have hrs : r.status = some "sent" := by
        simpa using hc
      rw [hrs] at hpend
      exact absurd hpend (by decide)

/-- A pending broadcast with two pending contacts, all sends succeeding, and
the RSVP analogue. -/
def C3okStoreM : MStore :=
  ⟨[⟨1, some "hello", none⟩], [⟨1, 1, "+1", none⟩, ⟨2, 1, "+2", none⟩]⟩

def C3okStoreR : RStore :=
  ⟨[⟨1, some "party", some "join us", none⟩],
    [⟨1, 1, "+1", none, none⟩, ⟨2, 1, "+2", none, none⟩]⟩

theorem C3_aggregate_sent_iff_amended_witness :
    (msgStatus (process_messages (fun _ => true) C3okStoreM).1 1 =
        some (some "sent") ↔
      (pendingContactsM C3okStoreM 1 ≠ [] ∧
        ∀ c ∈ pendingContactsM C3okStoreM 1, (fun _ => true) c.id = true)) ∧
    (rsvpStatus (process_rsvp_messages (fun _ => true) C3okStoreR).1 1 =
        some (some "sent") ↔
      (pendingContactsR C3okStoreR 1 ≠ [] ∧
        ∀ c ∈ pendingContactsR C3okStoreR 1, (fun _ => true) c.id = true)) :=
  ⟨C3_aggregate_sent_iff_amended.1 (fun _ => true) C3okStoreM
      ⟨1, some "hello", none⟩ (by decide) (by decide) (by decide) (by decide),
    C3_aggregate_sent_iff_amended.2 (fun _ => true) C3okStoreR
      ⟨1, some "party", some "join us", none⟩ (by decide) (by decide) (by decide)
      (by decide)⟩

/-! ## Claim C6 -/

/-- C6: in every fan-out tick, a contact whose gateway send fails is reverted
to pending — stored as the empty string, not a distinct `"failed"` marker —
so it is fetched and retried by the next tick with no backoff and no attempt
cap, and the failure does not prevent the remaining contacts of the same
aggregate from being attempted in the same tick.  Proved for both
instantiations (broadcast messages and RSVP invites): the failed row ends as
exactly the original row with status `some ""` (which satisfies the pending
fetch predicate), every pending contact of the aggregate is attempted in the
tick regardless, and a second tick attempts the failed contact again. -/
theorem C6_failed_contact_reverted_and_retried :
    (∀ (sendOk : Nat → Bool) (s : MStore) (m : MessageRow) (c : MContactRow),
      m ∈ s.messages → pendingN m.status = true →
      (s.messages.map MessageRow.id).Nodup →
      (s.contacts.map MContactRow.id).Nodup →
      c ∈ pendingContactsM s m.id → sendOk c.id = false →
      findBy MContactRow.id c.id (process_messages sendOk s).1.contacts =
        some (setMCStatus (some "") c) ∧
      pendingN (some "") = true ∧
      (∀ c' ∈ pendingContactsM s m.id,
        FEff.attempt c'.id (sendOk c'.id) ∈ (process_messages sendOk s).2) ∧
      FEff.attempt c.id false ∈
        (process_messages sendOk (process_messages sendOk s).1).2) ∧
    (∀ (sendOk : Nat → Bool) (s : RStore) (r : RsvpRow) (c : RContactRow),
      r ∈ s.rsvps → pendingN r.status = true →
      (s.rsvps.map RsvpRow.id).Nodup →
      (s.rcontacts.map RContactRow.id).Nodup →
      c ∈ pendingContactsR s r.id → sendOk c.id = false →
      findBy RContactRow.id c.id (process_rsvp_messages sendOk s).1.rcontacts =
        some (setRCInvite (some "") c) ∧
      pendingN (some "") = true ∧
      (∀ c' ∈ pendingContactsR s r.id,
        FEff.attempt c'.id (sendOk c'.id) ∈ (process_rsvp_messages sendOk s).2) ∧
      FEff.attempt c.id false ∈
        (process_rsvp_messages sendOk (process_rsvp_messages sendOk s).1).2) := by
  constructor
  · intro sendOk s m c hm hpend hndM hndC hc hfail
    have htgt := process_messages_target sendOk s m hm hpend hndM hndC
    have h1 : findBy MContactRow.id c.id (process_messages sendOk s).1.contacts =
        some (setMCStatus (some "") c) := by
      have h := htgt.2.1 c hc
      rw [hfail] at h
      simpa using h
    have hcondF : ¬(pendingContactsM s m.id ≠ [] ∧
        ∀ c' ∈ pendingContactsM s m.id, sendOk c'.id = true) := by
      intro h
      have h2 := h.2 c hc
      rw [hfail] at h2
      cases h2
    have hrow2 : findBy MessageRow.id m.id
        (process_messages sendOk s).1.messages = some m := by
      have h := htgt.1
      rw [if_neg hcondF] at h
      exact h
    have hm2 : m ∈ (process_messages sendOk s).1.messages :=
      (findBy_mem MessageRow.id m.id _ m hrow2).1
    have hndM2 : (((process_messages sendOk s).1.messages).map MessageRow.id).Nodup := by
      rw [htgt.2.2.2.2]
      exact hndM
    have hndC2 : (((process_messages sendOk s).1.contacts).map MContactRow.id).Nodup := by
      rw [contacts_id_map_eq_of_pair s.contacts _ htgt.2.2.2.1]
      exact hndC
    have hcmem : setMCStatus (some "") c ∈
        pendingContactsM (process_messages sendOk s).1 m.id := by
      refine List.mem_filter.mpr ⟨(findBy_mem MContactRow.id c.id _ _ h1).1, ?_⟩
      have hmid := (pendingContactsM_sub s m.id c hc).2.1
      simp [setMCStatus, hmid, pendingN]
    have htgt2 := process_messages_target sendOk (process_messages sendOk s).1 m
      hm2 hpend hndM2 hndC2
    have h4 := htgt2.2.2.1 (setMCStatus (some "") c) hcmem
    rw [show (setMCStatus (some "") c).id = c.id from rfl, hfail] at h4
    exact ⟨h1, rfl, htgt.2.2.1, h4⟩
  · intro sendOk s r c hr hpend hndR hndC hc hfail
    have htgt := process_rsvp_messages_target sendOk s r hr hpend hndR hndC
    have h1 : findBy RContactRow.id c.id
        (process_rsvp_messages sendOk s).1.rcontacts =
        some (setRCInvite (some "") c) := by
      have h := htgt.2.1 c hc
      rw [hfail] at h
      simpa using h
    have hcondF : ¬(pendingContactsR s r.id ≠ [] ∧
        ∀ c' ∈ pendingContactsR s r.id, sendOk c'.id = true) := by
      intro h
      have h2 := h.2 c hc
      rw [hfail] at h2
      cases h2
    have hrow2 : findBy RsvpRow.id r.id
        (process_rsvp_messages sendOk s).1.rsvps = some r := by
      have h := htgt.1
      rw [if_neg hcondF] at h
      exact h
    have hr2 : r ∈ (process_rsvp_messages sendOk s).1.rsvps :=
      (findBy_mem RsvpRow.id r.id _ r hrow2).1
    have hndR2 : (((process_rsvp_messages sendOk s).1.rsvps).map RsvpRow.id).Nodup := by
      rw [htgt.2.2.2.2]
      exact hndR
    have hndC2 : (((process_rsvp_messages sendOk s).1.rcontacts).map
        RContactRow.id).Nodup := by
      rw [rcontacts_id_map_eq_of_pair s.rcontacts _ htgt.2.2.2.1]
      exact hndC
    have hcmem : setRCInvite (some "") c ∈
        pendingContactsR (process_rsvp_messages sendOk s).1 r.id := by
      refine List.mem_filter.mpr ⟨(findBy_mem RContactRow.id c.id _ _ h1).1, ?_⟩
      have hmid := (pendingContactsR_sub s r.id c hc).2.1
      simp [setRCInvite, hmid, pendingN]
    have htgt2 := process_rsvp_messages_target sendOk
      (process_rsvp_messages sendOk s).1 r hr2 hpend hndR2 hndC2
    have h4 := htgt2.2.2.1 (setRCInvite (some "") c) hcmem
    rw [show (setRCInvite (some "") c).id = c.id from rfl, hfail] at h4
    exact ⟨h1, rfl, htgt.2.2.1, h4⟩

/-- An oracle failing exactly for contact id 1. -/
def wFail : Nat → Bool := fun i => !(decide (i = 1))

theorem C6_failed_contact_reverted_and_retried_witness :
    (findBy MContactRow.id 1 (process_messages wFail C3okStoreM).1.contacts =
        some (setMCStatus (some "") ⟨1, 1, "+1", none⟩) ∧
      pendingN (some "") = true ∧
      (∀ c' ∈ pendingContactsM C3okStoreM 1,
        FEff.attempt c'.id (wFail c'.id) ∈ (process_messages wFail C3okStoreM).2) ∧
      FEff.attempt 1 false ∈
        (process_messages wFail (process_messages wFail C3okStoreM).1).2) ∧
    (findBy RContactRow.id 1
        (process_rsvp_messages wFail C3okStoreR).1.rcontacts =
        some (setRCInvite (some "") ⟨1, 1, "+1", none, none⟩) ∧
      pendingN (some "") = true ∧
      (∀ c' ∈ pendingContactsR C3okStoreR 1,
        FEff.attempt c'.id (wFail c'.id) ∈ (process_rsvp_messages wFail C3okStoreR).2) ∧
      FEff.attempt 1 false ∈
        (process_rsvp_messages wFail (process_rsvp_messages wFail C3okStoreR).1).2) :=
  ⟨C6_failed_contact_reverted_and_retried.1 wFail C3okStoreM ⟨1, some "hello", none⟩
      ⟨1, 1, "+1", none⟩ (by decide) (by decide) (by decide) (by decide) (by decide)
      (by decide),
    C6_failed_contact_reverted_and_retried.2 wFail C3okStoreR
      ⟨1, some "party", some "join us", none⟩ ⟨1, 1, "+1", none, none⟩ (by decide)
      (by decide) (by decide) (by decide) (by decide) (by decide)⟩

/-! ## Reply correlator (`handle_rsvp_reply`) -/

/-- Python `\s` on the ASCII range. -/
def isPySpace (ch : Char) : Bool :=
  ch = ' ' || ch = '\t' || ch = '\n' || ch = '\r' || ch = '\x0b' || ch = '\x0c'

/-- `rsvp:\s*(yes|no)` anchored at the head of `l`: the literal `rsvp:`, a
maximal run of white space (backtracking over `\s*` cannot help since
neither alternative starts with white space), then `yes` or `no`, tried in
that order. -/
def rsvpMatchAt (l : List Char) : Option String :=
  if ['r', 's', 'v', 'p', ':'].isPrefixOf l then
    let rest := (l.drop 5).dropWhile isPySpace
    if ['y', 'e', 's'].isPrefixOf rest then some "yes"
    else if ['n', 'o'].isPrefixOf rest then some "no"
    else none
  else none

/-- Leftmost match of the pattern in the character list. -/
def rsvpSearch : List Char → Option String
  | [] => none
  | ch :: rest =>
    match rsvpMatchAt (ch :: rest) with
    | some r => some r
    | none => rsvpSearch rest

/-- ASCII lowering, the fragment of Python `str.lower` the replies use. -/
def lowerAscii (ch : Char) : Char :=
  if 'A' ≤ ch ∧ ch ≤ 'Z' then Char.ofNat (ch.toNat + 32) else ch

/-- `re.search(r"rsvp:\s*(yes|no)", body.lower())`, returning `group(1)`. -/
def rsvpMatch (body : String) : Option String :=
  rsvpSearch (body.data.map lowerAscii)

/-- `str.replace(pat, '')`: drop every occurrence of `pat`; the fuel (first
argument, instantiated with the list length) only makes the recursion
structural, since each step consumes at least one character. -/
def replaceDropAllGo (pat : List Char) : Nat → List Char → List Char
  | 0, l => l
  | _ + 1, [] => []
  | n + 1, ch :: rest =>
    if pat ≠ [] ∧ pat.isPrefixOf (ch :: rest) then
      replaceDropAllGo pat n ((ch :: rest).drop pat.length)
    else ch :: replaceDropAllGo pat n rest

def replaceDropAll (pat : List Char) (l : List Char) : List Char :=
  replaceDropAllGo pat l.length l

/-- `from_number.replace('whatsapp:', '') if from_number and
from_number.startswith('whatsapp:') else from_number`. -/
def normalizePhone (from_number : String) : String :=
  if from_number ≠ "" ∧ ("whatsapp:".data.isPrefixOf from_number.data) then
    String.mk (replaceDropAll "whatsapp:".data from_number.data)
  else from_number

/-- The query `.eq('contact_phone', number).eq('invite_status', 'sent')`. -/
def sentRowsFor (s : RStore) (phone : String) : List RContactRow :=
  s.rcontacts.filter
    (fun c => decide (c.contact_phone = phone) && decide (c.invite_status = some "sent"))

/-- `.order('id', desc=True).limit(1)` then taking the first row: the row
with the greatest id. -/
def argmaxId (l : List RContactRow) : Option RContactRow :=
  l.foldl (fun acc c =>
    match acc with
    | none => some c
    | some b => if b.id < c.id then some c else some b) none

/-- Lines 489–532.  The best-effort confirmation send (lines 515–525) only
logs on failure and has no store effect, so it is not modelled. -/
def handle_rsvp_reply (from_number body : String) (s : RStore) : RStore × String :=
  let normalized_number := normalizePhone from_number
  match rsvpMatch body with
  | none =>
    (s, "Sorry, I didn't understand your RSVP response. Please reply with 'rsvp: yes' or 'rsvp: no'.")
  | some response =>
    let status_value := if response = "yes" then "yes" else "no"
    match argmaxId (sentRowsFor s normalized_number) with
    | some c0 =>
      ({ s with
          rcontacts := updateBy RContactRow.id (setRCResponse (some status_value))
            c0.id s.rcontacts },
        "Thanks for your response! Your RSVP has been recorded.")
    | none =>
      (s, "Sorry, we could not find your RSVP invitation. Please ensure you are replying from the same WhatsApp number you received the invite on.")

theorem argmaxId_go (l : List RContactRow) (b : RContactRow) :
    ∃ c0, l.foldl (fun acc c =>
        match acc with
        | none => some c
        | some b2 => if b2.id < c.id then some c else some b2) (some b) = some c0 ∧
      (c0 = b ∨ c0 ∈ l) ∧ b.id ≤ c0.id ∧ ∀ c ∈ l, c.id ≤ c0.id := by
  induction l generalizing b with
  | nil => exact ⟨b, rfl, Or.inl rfl, le_refl _, fun c hc => absurd hc (List.not_mem_nil c)⟩
  | cons a l ih =>
      rw [List.foldl_cons]
      by_cases h : b.id < a.id
      · rcases ih a with ⟨c0, h1, h2, h3, h4⟩
        refine ⟨c0, ?_, ?_, le_of_lt (lt_of_lt_of_le h h3), ?_⟩
        · show List.foldl _ (if b.id < a.id then some a else some b) l = some c0
          rw [if_pos h]
          exact h1
        · rcases h2 with h2 | h2
          · exact Or.inr (h2 ▸ List.mem_cons_self a l)
          · exact Or.inr (List.mem_cons_of_mem a h2)
        · intro c hc
          rcases List.mem_cons.mp hc with hc2 | hc2
          · exact hc2 ▸ h3
          · exact h4 c hc2
      · rcases ih b with ⟨c0, h1, h2, h3, h4⟩
        refine ⟨c0, ?_, ?_, h3, ?_⟩
        · show List.foldl _ (if b.id < a.id then some a else some b) l = some c0
          rw [if_neg h]
          exact h1
        · rcases h2 with h2 | h2
          · exact Or.inl h2
          · exact Or.inr (List.mem_cons_of_mem a h2)
        · intro c hc
          rcases List.mem_cons.mp hc with hc2 | hc2
          · subst hc2
            exact le_trans (Nat.le_of_not_lt h) h3
          · exact h4 c hc2

theorem argmaxId_spec (l : List RContactRow) (hne : l ≠ []) :
    ∃ c0, argmaxId l = some c0 ∧ c0 ∈ l ∧ ∀ c ∈ l, c.id ≤ c0.id := by
  cases l with
  | nil => exact absurd rfl hne
  | cons a l =>
      rcases argmaxId_go l a with ⟨c0, h1, h2, h3, h4⟩
      refine ⟨c0, ?_, ?_, ?_⟩
      · unfold argmaxId
        rw [List.foldl_cons]
        exact h1
      · rcases h2 with h2 | h2
        · exact h2 ▸ List.mem_cons_self a l
        · exact List.mem_cons_of_mem a h2
      · intro c hc
        rcases List.mem_cons.mp hc with hc2 | hc2
        · subst hc2
          exact h3
        · exact h4 c hc2

/-! ## Claim C7 -/

/-- C7: a reply matching `rsvp:\s*(yes|no)` (case-insensitively) from a phone
number with at least two contact rows whose `invite_status` is `"sent"`
records the response on exactly the row with the greatest id: the store is
the original with precisely that row's `status` rewritten, every other row is
found unchanged, and every other matching row has a strictly smaller id. -/
theorem C7_reply_updates_latest_only (from_number body : String) (s : RStore)
    (r : String) (hmatch : rsvpMatch body = some r)
    (hnd : (s.rcontacts.map RContactRow.id).Nodup)
    (h2 : 2 ≤ (sentRowsFor s (normalizePhone from_number)).length) :
    ∃ c0, argmaxId (sentRowsFor s (normalizePhone from_number)) = some c0 ∧
      c0 ∈ sentRowsFor s (normalizePhone from_number) ∧
      (∀ c ∈ sentRowsFor s (normalizePhone from_number), ¬ c = c0 → c.id < c0.id) ∧
      (handle_rsvp_reply from_number body s).1.rcontacts =
        updateBy RContactRow.id
          (setRCResponse (some (if r = "yes" then "yes" else "no"))) c0.id
          s.rcontacts ∧
      (handle_rsvp_reply from_number body s).2 =
        "Thanks for your response! Your RSVP has been recorded." ∧
      (∀ c ∈ s.rcontacts, ¬ c.id = c0.id →
        findBy RContactRow.id c.id (handle_rsvp_reply from_number body s).1.rcontacts =
          findBy RContactRow.id c.id s.rcontacts) := by
  have hne : sentRowsFor s (normalizePhone from_number) ≠ [] := by
    intro hc
    rw [hc] at h2
    exact absurd h2 (by decide)
  rcases argmaxId_spec (sentRowsFor s (normalizePhone from_number)) hne with
    ⟨c0, hmax, hmem, hle⟩
  have hsub : ∀ c ∈ sentRowsFor s (normalizePhone from_number), c ∈ s.rcontacts :=
    fun c hc => (List.mem_filter.mp hc).1
  have hstrict : ∀ c ∈ sentRowsFor s (normalizePhone from_number),
      ¬ c = c0 → c.id < c0.id := by
    intro c hc hcne
    rcases Nat.lt_or_ge c.id c0.id with h | h
    · exact h
    · have heq : c.id = c0.id := Nat.le_antisymm (hle c hc) h
      have : c = c0 := key_inj_of_nodup RContactRow.id s.rcontacts hnd c c0
        (hsub c hc) (hsub c0 hmem) heq
      exact absurd this hcne
  have hres : handle_rsvp_reply from_number body s =
      ({ s with
          rcontacts := updateBy RContactRow.id
            (setRCResponse (some (if r = "yes" then "yes" else "no"))) c0.id
            s.rcontacts },
        "Thanks for your response! Your RSVP has been recorded.") := by
    unfold handle_rsvp_reply
    rw [hmatch]
    show (match argmaxId (sentRowsFor s (normalizePhone from_number)) with
      | some c0 => _
      | none => _ : RStore × String) = _
    rw [hmax]
  refine ⟨c0, hmax, hmem, hstrict, ?_, ?_, ?_⟩
  · rw [hres]
  · rw [hres]
  · intro c hc hcne
    rw [hres]
    show findBy RContactRow.id c.id (updateBy RContactRow.id _ c0.id s.rcontacts) = _
    exact findBy_updateBy_ne RContactRow.id
      (setRCResponse (some (if r = "yes" then "yes" else "no"))) c0.id c.id
      (fun x => rfl) hcne s.rcontacts

/-- Two `"sent"` invitations for the same phone with ids 10 and 14 (the
spec's example). -/
def C7store : RStore :=
  ⟨[], [⟨10, 1, "+1", some "sent", none⟩, ⟨14, 2, "+1", some "sent", none⟩]⟩

theorem C7_reply_updates_latest_only_witness :
    ∃ c0, argmaxId (sentRowsFor C7store (normalizePhone "whatsapp:+1")) = some c0 ∧
      c0 ∈ sentRowsFor C7store (normalizePhone "whatsapp:+1") ∧
      (∀ c ∈ sentRowsFor C7store (normalizePhone "whatsapp:+1"),
        ¬ c = c0 → c.id < c0.id) ∧
      (handle_rsvp_reply "whatsapp:+1" "rsvp: yes" C7store).1.rcontacts =
        updateBy RContactRow.id
          (setRCResponse (some (if "yes" = "yes" then "yes" else "no"))) c0.id
          C7store.rcontacts ∧
      (handle_rsvp_reply "whatsapp:+1" "rsvp: yes" C7store).2 =
        "Thanks for your response! Your RSVP has been recorded." ∧
      (∀ c ∈ C7store.rcontacts, ¬ c.id = c0.id →
        findBy RContactRow.id c.id
            (handle_rsvp_reply "whatsapp:+1" "rsvp: yes" C7store).1.rcontacts =
          findBy RContactRow.id c.id C7store.rcontacts) :=
  C7_reply_updates_latest_only "whatsapp:+1" "rsvp: yes" C7store "yes"
    (by decide) (by decide) (by decide)

/-! ## Conversation engine: calendar dates and intent classification -/

/-- A calendar date.  Comparisons are lexicographic, which coincides with the
ISO-string comparisons the Supabase range filters perform. -/
structure Date where
  year : Int
  month : Nat
  day : Nat
deriving DecidableEq, Repr

def dateLe (a b : Date) : Bool :=
  decide (a.year < b.year) ||
    (decide (a.year = b.year) &&
      (decide (a.month < b.month) ||
        (decide (a.month = b.month) && decide (a.day ≤ b.day))))

def dateLt (a b : Date) : Bool :=
  decide (a.year < b.year) ||
    (decide (a.year = b.year) &&
      (decide (a.month < b.month) ||
        (decide (a.month = b.month) && decide (a.day < b.day))))

/-- Rata-die day number of a civil date (days since 1970-01-01, Howard
Hinnant's `days_from_civil`), used for `timedelta` arithmetic. -/
def daysFromCivil (d : Date) : Int :=
  let m : Int := d.month
  let y : Int := if m ≤ 2 then d.year - 1 else d.year
  let era : Int := (if y ≥ 0 then y else y - 399) / 400
  let yoe : Int := y - era * 400
  let doy : Int := (153 * (m + (if m > 2 then -3 else 9)) + 2) / 5 + (d.day : Int) - 1
  let doe : Int := yoe * 365 + yoe / 4 - yoe / 100 + doy
  era * 146097 + doe - 719468

/-- Inverse of `daysFromCivil` (Hinnant's `civil_from_days`). -/
def civilFromDays (z0 : Int) : Date :=
  let z : Int := z0 + 719468
  let era : Int := (if z ≥ 0 then z else z - 146096) / 146097
  let doe : Int := z - era * 146097
  let yoe : Int := (doe - doe / 1460 + doe / 36524 - doe / 146096) / 365
  let y : Int := yoe + era * 400
  let doy : Int := doe - (365 * yoe + yoe / 4 - yoe / 100)
  let mp : Int := (5 * doy + 2) / 153
  let d : Int := doy - (153 * mp + 2) / 5 + 1
  let m : Int := if mp < 10 then mp + 3 else mp - 9
  ⟨if m ≤ 2 then y + 1 else y, m.toNat, d.toNat⟩

/-- `datetime.weekday()`: Monday is 0.  Day 0 (1970-01-01) was a Thursday. -/
def weekdayOf (d : Date) : Int :=
  (daysFromCivil d + 3) % 7

def monthName (m : Nat) : String :=
  match m with
  | 1 => "January" | 2 => "February" | 3 => "March" | 4 => "April"
  | 5 => "May" | 6 => "June" | 7 => "July" | 8 => "August"
  | 9 => "September" | 10 => "October" | 11 => "November" | 12 => "December"
  | _ => ""

def pad2 (n : Nat) : String :=
  if n < 10 then "0" ++ toString n else toString n

/-- `strftime('%B %d, %Y')`. -/
def formatBdY (d : Date) : String :=
  let mn := monthName d.month
  let dd := pad2 d.day
  let yy := toString d.year
  s!"{mn} {dd}, {yy}"

/-- `strftime('%B %d')`. -/
def formatBd (d : Date) : String :=
  let mn := monthName d.month
  let dd := pad2 d.day
  s!"{mn} {dd}"

/-- The row fields of `events` the conversation engine reads, with the date
as a calendar date (the reminder scheduler's `EventRow` views the same table
with the date as a day number). -/
structure GEvent where
  id : Nat
  title : String
  event_date : Date
  event_type : String
  user_id : String
deriving DecidableEq, Repr

/-- The upper end of a month window:
`f"{year + 1}-01-01"` for December, else `f"{year}-{month + 1:02d}-01"`. -/
def nextMonthStart (year : Int) (month : Nat) : Date :=
  if month = 12 then ⟨year + 1, 1, 1⟩ else ⟨year, month + 1, 1⟩

/-- `get_user_events(user_id, month, year, upcoming_only)` (lines 340–357).
`if month and year:` is modelled by the option pair; the range filters
`gte`/`lt` are the date comparisons. -/
def get_user_events (eventsTable : List GEvent) (user_id : String)
    (monthYear : Option (Nat × Int)) (upcoming_only : Bool) (today : Date) :
    List GEvent :=
  let q := eventsTable.filter (fun e => decide (e.user_id = user_id))
  match monthYear with
  | some (m, y) =>
    q.filter (fun e => dateLe ⟨y, m, 1⟩ e.event_date &&
      dateLt e.event_date (nextMonthStart y m))
  | none => if upcoming_only then q.filter (fun e => dateLe today e.event_date) else q

/-- Python `needle in hay` on strings. -/
def containsSub (needle : List Char) : List Char → Bool
  | [] => needle.isPrefixOf []
  | ch :: rest => needle.isPrefixOf (ch :: rest) || containsSub needle rest

def strContains (hay needle : String) : Bool :=
  containsSub needle.data hay.data

def pyLower (s : String) : String :=
  String.mk (s.data.map lowerAscii)

def month_names : List (String × Nat) :=
  [("january", 1), ("february", 2), ("march", 3), ("april", 4), ("may", 5),
    ("june", 6), ("july", 7), ("august", 8), ("september", 9), ("october", 10),
    ("november", 11), ("december", 12)]

/-- `analyze_event_query` (lines 359–379); `message_lower` is inlined as
`pyLower message_text`. -/
def analyze_event_query (message_text : String) : String :=
  match month_names.find? (fun p => strContains (pyLower message_text) p.1) with
  | some p => "specific_month_" ++ toString p.2
  | none =>
    if ["this month", "current month", "month"].any
        (fun w => strContains (pyLower message_text) w) then "current_month"
    else if ["next month", "following month"].any
        (fun w => strContains (pyLower message_text) w) then "next_month"
    else if ["this week", "current week", "week"].any
        (fun w => strContains (pyLower message_text) w) then "current_week"
    else if ["upcoming", "future", "coming", "ahead"].any
        (fun w => strContains (pyLower message_text) w) then "upcoming"
    else if ["all", "everything", "list"].any
        (fun w => strContains (pyLower message_text) w) then "all"
    else "current_month"

lemma containsSub_iff (n : List Char) (l : List Char) :
    containsSub n l = true ↔ n <:+: l := by
  induction l with
  | nil => simp [containsSub, List.isPrefixOf_iff_prefix]
  | cons ch rest ih =>
    simp [containsSub, Bool.or_eq_true, List.isPrefixOf_iff_prefix, ih,
      List.infix_cons_iff]

lemma strContains_of_subphrase (ml w v : String)
    (hwv : containsSub v.data w.data = true)
    (h : strContains ml w = true) : strContains ml v = true := by
  unfold strContains at h ⊢
  exact (containsSub_iff _ _).mpr
    (((containsSub_iff _ _).mp hwv).trans ((containsSub_iff _ _).mp h))

/-- C8: the stated precedence is violated for next-month queries.  The keyword
`"month"` sits in the current-month group, which is tested before the
next-month group, so `"next month"` (which contains no specific month name)
is classified as `"current_month"`; in fact no input at all is ever
classified as `"next_month"`, leaving the next-month window handler of
`get_gemini_response` (lines 429–433) unreachable. -/
theorem C8_next_month_unreachable :
    analyze_event_query "next month" = "current_month" ∧
    ∀ s : String, analyze_event_query s ≠ "next_month" := by
  refine ⟨by decide, ?_⟩
  intro s h
  unfold analyze_event_query at h
  cases hf : month_names.find? (fun p => strContains (pyLower s) p.1) with
  | some p =>
    rw [hf] at h
    have h' : "specific_month_" ++ toString p.2 = "next_month" := h
    have hp : p ∈ month_names := List.mem_of_find?_eq_some hf
    fin_cases hp <;> exact absurd h' (by decide)
  | none =>
    rw [hf] at h
    by_cases h1 : (["this month", "current month", "month"].any
        (fun w => strContains (pyLower s) w)) = true
    · rw [if_pos h1] at h; exact absurd h (by decide)
    · rw [if_neg h1] at h
      by_cases h2 : (["next month", "following month"].any
          (fun w => strContains (pyLower s) w)) = true
      · apply h1
        simp only [List.any_cons, List.any_nil, Bool.or_eq_true,
          Bool.or_false] at h2 ⊢
        rcases h2 with hc | hc
        · exact Or.inr (Or.inr (strContains_of_subphrase _ _ _ (by decide) hc))
        · exact Or.inr (Or.inr (strContains_of_subphrase _ _ _ (by decide) hc))
      · rw [if_neg h2] at h
        split_ifs at h <;> exact absurd h (by decide)

/-! ## Conversation engine: get_gemini_response (lines 381–473) -/

/-- One entry of a conversation history. -/
structure Turn where
  role : String
  parts : List String
deriving DecidableEq, Repr

def geminiUnavailableMsg : String :=
  "I'm sorry, the AI service is currently unavailable. Please try again later."

def geminiErrorMsg : String :=
  "I'm sorry, I couldn't process your request at the moment. Please try again."

/-- Lines 403–410 (and the identical 452–459). -/
def timeInfo (days_until : Int) : String :=
  if days_until = 0 then " (today)"
  else if days_until = 1 then " (tomorrow)"
  else if days_until > 0 then s!" (in {days_until} days)"
  else
    let d := days_until.natAbs
    s!" ({d} days ago)"

/-- One bullet of the events context (lines 400–411 / 449–460). -/
def eventLine (current_date : Date) (e : GEvent) : String :=
  let event_date := formatBdY e.event_date
  let event_type := if e.event_type = "recurrence" then "recurring event"
    else "deadline"
  let days_until := daysFromCivil e.event_date - daysFromCivil current_date
  let ti := timeInfo days_until
  let title := e.title
  s!"- {title} ({event_type}) on {event_date}{ti}\n"

/-- Lines 397–414: the unfiltered listing of all the user's events. -/
def allEventsContext (all_user_events : List GEvent) (current_date : Date) :
    String :=
  if all_user_events.isEmpty then "\n\nYou have no events in your database."
  else
    let lines := String.join (all_user_events.map (eventLine current_date))
    let n := all_user_events.length
    "\n\nHere are ALL your events from the database:\n" ++ lines ++
      s!"\nTotal: {n} event(s) in your database."

/-- Line 416. -/
def scheduleKeywords : List String :=
  ["event", "events", "schedule", "calendar", "reminder", "deadline",
    "appointment", "meeting", "september", "month", "week"]

/-- `int(query_type.split('_')[2])` applied to a `specific_month_N` tag:
the characters after the 15-character prefix `specific_month_`, read as a
decimal numeral. -/
def digitsToNat (l : List Char) : Nat :=
  l.foldl (fun acc ch => acc * 10 + (ch.toNat - 48)) 0

/-- Lines 418–445: the filtered event list and its period text, by query
type. -/
def gemini_filtered (eventsTable : List GEvent) (user_id : String)
    (current_date : Date) (all_user_events : List GEvent)
    (query_type : String) : List GEvent × String :=
  if "specific_month_".data.isPrefixOf query_type.data then
    (get_user_events eventsTable user_id
        (some (digitsToNat (query_type.data.drop 15),
          if digitsToNat (query_type.data.drop 15) < current_date.month
          then current_date.year + 1 else current_date.year))
        false current_date,
      monthName (digitsToNat (query_type.data.drop 15)) ++ " " ++
        toString (if digitsToNat (query_type.data.drop 15) < current_date.month
          then current_date.year + 1 else current_date.year))
  else if query_type = "current_month" then
    (get_user_events eventsTable user_id
        (some (current_date.month, current_date.year)) false current_date,
      monthName current_date.month ++ " " ++ toString current_date.year)
  else if query_type = "next_month" then
    let next_month := if current_date.month < 12 then current_date.month + 1
      else 1
    let next_year := if current_date.month < 12 then current_date.year
      else current_date.year + 1
    (get_user_events eventsTable user_id (some (next_month, next_year))
        false current_date,
      monthName next_month ++ " " ++ toString current_date.year)
  else if query_type = "current_week" then
    let upcoming_events := get_user_events eventsTable user_id none true
      current_date
    let ws := daysFromCivil current_date - weekdayOf current_date
    let we := ws + 7
    (upcoming_events.filter (fun e =>
        decide (ws ≤ daysFromCivil e.event_date) &&
          decide (daysFromCivil e.event_date < we)),
      "this week (starting " ++ formatBd (civilFromDays ws) ++ ")")
  else if query_type = "upcoming" then
    (get_user_events eventsTable user_id none true current_date, "upcoming")
  else
    (all_user_events, "all time")

/-- Lines 446–463. -/
def filteredContext (current_date : Date) (pair : List GEvent × String) :
    String :=
  let filtered_events := pair.1
  let period_text := pair.2
  if filtered_events.isEmpty then s!"\n\nNo events found for {period_text}."
  else
    let lines := String.join (filtered_events.map (eventLine current_date))
    let n := filtered_events.length
    s!"\n\nFiltered events for {period_text}:\n" ++ lines ++
      s!"\nFiltered total: {n} event(s) for {period_text}"

/-- Lines 394–463: the whole events context appended to the prompt. -/
def eventsContext (eventsTable : List GEvent) (user_id : String)
    (current_date : Date) (message_text : String) : String :=
  let all_user_events := get_user_events eventsTable user_id none false
    current_date
  let base := allEventsContext all_user_events current_date
  if scheduleKeywords.any (fun w => strContains (pyLower message_text) w) then
    base ++ filteredContext current_date
      (gemini_filtered eventsTable user_id current_date all_user_events
        (analyze_event_query message_text))
  else base

/-- Line 464. -/
def enhancedMessage (eventsTable : List GEvent) (user_id : String)
    (current_date : Date) (message_text : String) : String :=
  message_text ++
    "\n\nContext: You are an AI assistant for RemindMe, a reminder app. You have access to the user's event database. Use this information to answer their questions about events, schedules, reminders, etc." ++
    eventsContext eventsTable user_id current_date message_text

/-- `get_gemini_response` (lines 381–473).  `modelAvailable` is the truth of
`gemini_model`; `aiReply` abstracts `start_chat(history).send_message(...)`
followed by `response.text`, with `Except.error` standing for a raised
exception; the events table and the user's stored history are passed
explicitly.  Returns the reply and the updated history (lines 467–468 run
only on success; the except arm at 471–473 leaves the history alone). -/
def get_gemini_response (modelAvailable : Bool)
    (aiReply : List Turn → String → Except String String)
    (eventsTable : List GEvent) (current_date : Date)
    (history : List Turn) (user_id message_text : String) :
    String × List Turn :=
  if modelAvailable = false then (geminiUnavailableMsg, history)
  else
    match aiReply history
        (enhancedMessage eventsTable user_id current_date message_text) with
    | Except.ok text =>
      (text, history ++ [⟨"user", [message_text]⟩, ⟨"model", [text]⟩])
    | Except.error _ => (geminiErrorMsg, history)

/-- C9: if the model is unavailable, `get_gemini_response` returns the fixed
unavailability apology; if the AI call raises, it returns the fixed
error apology.  In both cases the result is an ordinary return value — the
function is total, so no exception propagates — and the stored history is
left unchanged. -/
theorem C9_ai_fallback :
    (∀ (aiReply : List Turn → String → Except String String)
        (eventsTable : List GEvent) (current_date : Date)
        (history : List Turn) (user_id message_text : String),
      get_gemini_response false aiReply eventsTable current_date history
          user_id message_text = (geminiUnavailableMsg, history)) ∧
    (∀ (aiReply : List Turn → String → Except String String)
        (eventsTable : List GEvent) (current_date : Date)
        (history : List Turn) (user_id message_text err : String),
      aiReply history
          (enhancedMessage eventsTable user_id current_date message_text) =
        Except.error err →
      get_gemini_response true aiReply eventsTable current_date history
          user_id message_text = (geminiErrorMsg, history)) := by
  constructor
  · intro aiReply eventsTable current_date history user_id message_text
    rfl
  · intro aiReply eventsTable current_date history user_id message_text err herr
    unfold get_gemini_response
    rw [herr]
    rfl

theorem C9_ai_fallback_witness :
    get_gemini_response false (fun _ _ => Except.error "boom") [] ⟨2025, 9, 1⟩
        [] "u1" "hello" = (geminiUnavailableMsg, []) ∧
    get_gemini_response true (fun _ _ => Except.error "boom") [] ⟨2025, 9, 1⟩
        [] "u1" "hello" = (geminiErrorMsg, []) :=
  ⟨C9_ai_fallback.1 (fun _ _ => Except.error "boom") [] ⟨2025, 9, 1⟩ []
      "u1" "hello",
    C9_ai_fallback.2 (fun _ _ => Except.error "boom") [] ⟨2025, 9, 1⟩ []
      "u1" "hello" "boom" rfl⟩

lemma get_user_events_month_mem (tbl : List GEvent) (uid : String)
    (m : Nat) (y : Int) (today : Date) (e : GEvent) :
    e ∈ get_user_events tbl uid (some (m, y)) false today ↔
      ((e ∈ tbl ∧ e.user_id = uid) ∧
        (dateLe ⟨y, m, 1⟩ e.event_date &&
          dateLt e.event_date (nextMonthStart y m)) = true) := by
  simp only [get_user_events, List.mem_filter, decide_eq_true_eq]

/-- A valid calendar date lies in the `[first of month, first of next month)`
window exactly when its year and month match. -/
lemma month_window_iff (y : Int) (m : Nat) (d : Date)
    (hm1 : 1 ≤ m) (hm12 : m ≤ 12)
    (hd1 : 1 ≤ d.day) (hdm1 : 1 ≤ d.month) (hdm12 : d.month ≤ 12) :
    (dateLe ⟨y, m, 1⟩ d && dateLt d (nextMonthStart y m)) = true ↔
      (d.year = y ∧ d.month = m) := by
  rcases eq_or_ne m 12 with h12 | h12
  · subst h12
    have hn : nextMonthStart y 12 = ⟨y + 1, 1, 1⟩ := rfl
    rw [hn]
    simp only [dateLe, dateLt, Bool.and_eq_true, Bool.or_eq_true,
      decide_eq_true_eq]
    omega
  · have hn : nextMonthStart y m = ⟨y, m + 1, 1⟩ := by
      unfold nextMonthStart
      rw [if_neg h12]
    rw [hn]
    simp only [dateLe, dateLt, Bool.and_eq_true, Bool.or_eq_true,
      decide_eq_true_eq]
    omega

/-- C10: when the classifier reports a specific month, the filtered window is
that month in the current year if the month number is at least the current
month's, and in the next year if it is strictly smaller (lines 418–423): for
valid dates, an event is in the filtered list iff it belongs to the user and
its date's month is the named one and its year is the rolled-over target
year. -/
theorem C10_specific_month_year_rollover
    (eventsTable all_user_events : List GEvent)
    (user_id message_text : String) (current_date : Date)
    (mn : Nat) (e : GEvent)
    (hq : analyze_event_query message_text = "specific_month_" ++ toString mn)
    (hmn1 : 1 ≤ mn) (hmn12 : mn ≤ 12)
    (hd1 : 1 ≤ e.event_date.day) (hm1 : 1 ≤ e.event_date.month)
    (hm12 : e.event_date.month ≤ 12) :
    e ∈ (gemini_filtered eventsTable user_id current_date all_user_events
        (analyze_event_query message_text)).1 ↔
      (e ∈ eventsTable ∧ e.user_id = user_id ∧ e.event_date.month = mn ∧
        e.event_date.year =
          (if mn < current_date.month then current_date.year + 1
            else current_date.year)) := by
  have hdata : ("specific_month_" ++ toString mn).data
      = "specific_month_".data ++ (toString mn).data := String.data_append _ _
  have hpre : ("specific_month_".data).isPrefixOf
      (("specific_month_" ++ toString mn).data) = true := by
    rw [hdata, List.isPrefixOf_iff_prefix]
    exact List.prefix_append _ _
  have hparse : digitsToNat (("specific_month_" ++ toString mn).data.drop 15)
      = mn := by
    rw [hdata]
    have h15 : ("specific_month_".data).length = 15 := rfl
    rw [← h15, List.drop_left]
    interval_cases mn <;> rfl
  rw [hq]
  unfold gemini_filtered
  rw [if_pos hpre, hparse]
  rw [get_user_events_month_mem]
  rw [month_window_iff _ _ _ hmn1 hmn12 hd1 hm1 hm12]
  tauto

def C10event : GEvent := ⟨1, "exam", ⟨2026, 1, 10⟩, "deadline", "u1"⟩

def C10table : List GEvent := [C10event]

theorem C10_specific_month_year_rollover_witness :
    analyze_event_query "show my January events"
        = "specific_month_" ++ toString 1 ∧
    (C10event ∈ (gemini_filtered C10table "u1" ⟨2025, 9, 15⟩ C10table
        (analyze_event_query "show my January events")).1 ↔
      (C10event ∈ C10table ∧ C10event.user_id = "u1" ∧
        C10event.event_date.month = 1 ∧
        C10event.event_date.year =
          (if 1 < (⟨2025, 9, 15⟩ : Date).month then (⟨2025, 9, 15⟩ : Date).year + 1
            else (⟨2025, 9, 15⟩ : Date).year))) :=
  ⟨by decide,
    C10_specific_month_year_rollover C10table C10table "u1"
      "show my January events" ⟨2025, 9, 15⟩ 1 C10event (by decide)
      (by decide) (by decide) (by decide) (by decide) (by decide)⟩
